import Mathlib

/-!
Verification development for `hivgfp_tcd_teeeivgamma.py`.

Shallow embedding of the core of the script: the parameter state `_Par`
and its derivation step `checkpars`, the two ODE right-hand-side
evaluators `_ode_expP` and `_ode_gammaP`, and the per-time-point part of
the summary reducer `getsummarydata`.  Machine floats are modelled by `ℝ`.
The script is Python 2 (`dict.items().sort()`), whose `round` rounds
halves away from zero; every rounded quantity here is a square, hence
nonnegative, so Mathlib `round` (round half up) agrees with it, and the
final `int(...)` truncation of the nonnegative result is `Int.toNat`.
`sys.exit()` and NumPy division by zero are modelled explicitly at the
definitions that use them.
-/

noncomputable section

namespace HIVModel

/-- A dynamically typed Python attribute value, as far as the script
needs one: the `deathtype` attribute of `_Par` holds the string `exp` or
`gamma` when assigned directly, but holds a float after any assignment
through `setpars` (which coerces with `float()`).  Python equality
between a float and a string is `False`, which the constructor-based
equality of this type reproduces. -/
inductive PyVal where
  | num (x : ℝ)
  | str (s : String)

noncomputable instance : DecidableEq PyVal := Classical.decEq _

/-- The parameter state `_Par` of the script: every field read by
`checkpars`, by the two RHS evaluators or by `getsummarydata`.  The
derived stage counts `_nT`, `_nEE`, `_nER`, `_nEI`, `_nP` are `nT`, ...,
`nP`; `_onset_time` is `onset_time`.  `onedaydilution` is stored as `0`
or `1` in the source and only ever used as a truth value, so it is
modelled as `Bool`.  `deathtype` is dynamically typed (see `PyVal`). -/
@[ext]
structure Par where
  N : ℝ
  tauT : ℝ
  sigmaT : ℝ
  s : ℝ
  dD : ℝ
  beta : ℝ
  V0 : ℝ
  c : ℝ
  onedaydilution : Bool
  tauEE : ℝ
  sigmaEE : ℝ
  dEE : ℝ
  fEE : ℝ
  EFAV_time : ℝ
  tauER : ℝ
  sigmaER : ℝ
  dER : ℝ
  fER : ℝ
  RALT_time : ℝ
  tauEI : ℝ
  sigmaEI : ℝ
  dEI : ℝ
  fEI : ℝ
  deathtype : PyVal
  tauP : ℝ
  sigmaP : ℝ
  dP : ℝ
  onset_time : ℝ
  nT : ℕ
  nEE : ℕ
  nER : ℕ
  nEI : ℕ
  nP : ℕ

/-- Stage count derivation `int(max(1, round((tau/sigma)**2)))` from
`checkpars`.  The squared ratio is nonnegative, so taking `max` with `1`
before or after the integer truncation is the same; `Int.toNat` is the
truncation of the (nonnegative) rounded value. -/
def derive_n (tau sigma : ℝ) : ℕ := max 1 (round ((tau / sigma) ^ 2)).toNat

/-- Adjusted standard deviation `math.sqrt(tau**2/n)` from `checkpars`. -/
def derive_sigma (tau : ℝ) (n : ℕ) : ℝ := Real.sqrt (tau ^ 2 / n)

/-- `checkpars()`: re-derives each stage count from the corresponding
(mean, stddev) pair and overwrites the stddev, then branches on
`deathtype`: `exp` forces `_nP = 1, sigmaP = tauP`, `gamma` applies the
same derivation to the P pair, anything else calls `sys.exit()`.  The
source mutates `_Par` in place and `sys.exit()` kills the process, so the
whole step is modelled as `Option Par`: `none` means fatal termination
(no parameter state survives; the four pair-updates made before the
`sys.exit()` call are unobservable). -/
def checkpars (p : Par) : Option Par :=
  if p.deathtype = PyVal.str "exp" then
    some { p with
      nT := derive_n p.tauT p.sigmaT
      sigmaT := derive_sigma p.tauT (derive_n p.tauT p.sigmaT)
      nEE := derive_n p.tauEE p.sigmaEE
      sigmaEE := derive_sigma p.tauEE (derive_n p.tauEE p.sigmaEE)
      nER := derive_n p.tauER p.sigmaER
      sigmaER := derive_sigma p.tauER (derive_n p.tauER p.sigmaER)
      nEI := derive_n p.tauEI p.sigmaEI
      sigmaEI := derive_sigma p.tauEI (derive_n p.tauEI p.sigmaEI)
      nP := 1
      sigmaP := p.tauP }
  else if p.deathtype = PyVal.str "gamma" then
    some { p with
      nT := derive_n p.tauT p.sigmaT
      sigmaT := derive_sigma p.tauT (derive_n p.tauT p.sigmaT)
      nEE := derive_n p.tauEE p.sigmaEE
      sigmaEE := derive_sigma p.tauEE (derive_n p.tauEE p.sigmaEE)
      nER := derive_n p.tauER p.sigmaER
      sigmaER := derive_sigma p.tauER (derive_n p.tauER p.sigmaER)
      nEI := derive_n p.tauEI p.sigmaEI
      sigmaEI := derive_sigma p.tauEI (derive_n p.tauEI p.sigmaEI)
      nP := derive_n p.tauP p.sigmaP
      sigmaP := derive_sigma p.tauP (derive_n p.tauP p.sigmaP) }
  else
    none

/-- Parameter state with the default values of the script (stage counts
as derived in the class body from the default tau/sigma pairs). -/
def par0 : Par where
  N := 300000
  tauT := 6
  sigmaT := 3
  s := 0
  dD := 1 / 1000
  beta := 1 / 100
  V0 := 1 / 1000
  c := 1 / 10
  onedaydilution := false
  tauEE := 6
  sigmaEE := 3
  dEE := 1 / 1000
  fEE := 1 / 1000
  EFAV_time := 1000000
  tauER := 6
  sigmaER := 3
  dER := 1 / 1000
  fER := 1 / 1000
  RALT_time := 1000000
  tauEI := 6
  sigmaEI := 3
  dEI := 1 / 1000
  fEI := 1 / 1000
  deathtype := PyVal.str "exp"
  tauP := 6
  sigmaP := 3
  dP := 1 / 1000
  onset_time := 1 / 10
  nT := 4
  nEE := 4
  nER := 4
  nEI := 4
  nP := 1

/-! ## The setter `setpars` and the float coercion of `deathtype` -/

/-- Value of a digit string, `10*acc + digit` left fold. -/
def digitsVal (l : List Char) : ℕ :=
  l.foldl (fun acc ch => 10 * acc + (ch.toNat - 48)) 0

/-- Model of the Python builtin `float()` applied to a string: `none`
models the `ValueError` exception.  Python accepts decimal literals
(optionally signed, with an optional fractional part; also exponent and
infinity forms not needed here) and raises `ValueError` on anything
else.  This model parses plain `[-]digits[.digits]` forms; in particular
it accepts every such numeric string and rejects non-numeric words such
as `"gamma"` or `"exp"`, exactly as Python does. -/
def pyfloatOfString (str : String) : Option ℝ :=
  let l := str.data
  let neg := l.take 1 = ['-']
  let t := if neg then l.drop 1 else l
  let a := t.takeWhile (fun ch => ch ≠ '.')
  match t.dropWhile (fun ch => ch ≠ '.') with
  | [] =>
      if 0 < a.length ∧ a.all Char.isDigit then
        some ((if neg then -1 else 1) * (digitsVal a : ℝ))
      else none
  | _ :: b =>
      if 0 < a.length + b.length ∧ a.all Char.isDigit ∧ b.all Char.isDigit then
        some ((if neg then -1 else 1) *
          ((digitsVal a : ℝ) + (digitsVal b : ℝ) / 10 ^ b.length))
      else none

/-- The Python builtin `float()` on a dynamically typed value: a float is
returned unchanged, a string is parsed (`none` = `ValueError`). -/
def pyfloat (v : PyVal) : Option ℝ :=
  match v with
  | .num x => some x
  | .str str => pyfloatOfString str

/-- `setpars(deathtype=v)`: the setter coerces the supplied value through
`float()` and only then assigns it and calls `checkpars()`.  The outer
`Option` is the `float()` call: `none` means it raised `ValueError`, so
nothing was assigned and `checkpars` never ran.  On success the assigned
attribute is the float `PyVal.num x`, and the inner value is the result
of the `checkpars()` validation on the updated state. -/
def setpars_deathtype (p : Par) (v : PyVal) : Option (Option Par) :=
  match pyfloat v with
  | none => none
  | some x => some (checkpars { p with deathtype := PyVal.num x })

/-! ## Summary reducer (`getsummarydata`), one time point -/

/-- NumPy float division.  Division of floats by zero raises no exception
and yields `inf` or `nan` (with a runtime warning); the non-real result
is modelled as `none`. -/
def npdiv (a b : ℝ) : Option ℝ := if b = 0 then none else some (a / b)

/-- One output row of `getsummarydata`: `[total, dead, frac-inf,
dead-frac-of-inf]`.  `fracinf` is produced by an unguarded NumPy
division, so it can be `nan` (`none` here); `fracdeadinf` is guarded in
the source and is always a real number. -/
structure SummaryRow where
  total : ℝ
  dead : ℝ
  fracinf : Option ℝ
  fracdeadinf : ℝ

/-- Body of the `getsummarydata` loop for a single time point, applied to
the state vector `X` of that time point (a flat vector of length
`nT*ncolL + 2`; entries beyond that length are never read).  Mirrors the
source: `nP` falls back to `1` unless `deathtype == 'gamma'`, `total` and
`dead` are clipped sums, `liveinf` accumulates the productive columns of
every death-hazard segment, `XX[i,2]` is an unguarded division by
`total`, and `XX[i,3]` is guarded by `(liveinf+deadinf) > 0`. -/
def getsummaryrow (p : Par) (X : ℕ → ℝ) : SummaryRow :=
  let nP := if p.deathtype = PyVal.str "gamma" then p.nP else 1
  let ncolL := 1 + p.nEE + p.nER + p.nEI + nP
  let ncolE := p.nEE + p.nER + p.nEI
  let total := max (∑ k in Finset.range (p.nT * ncolL + 2), X k) 0
  let dead := max (X (p.nT * ncolL) + X (p.nT * ncolL + 1)) 0
  let deadinf := max (X (p.nT * ncolL + 1)) 0
  let liveinf := ∑ j in Finset.range p.nT,
    ∑ k in Finset.Ico (j * ncolL + (1 + ncolE)) (j * ncolL + (1 + ncolE + nP)), X k
  { total := total
    dead := dead
    fracinf := npdiv (deadinf + liveinf) total
    fracdeadinf := if 0 < liveinf + deadinf then deadinf / (liveinf + deadinf) else 0 }

/-! ## The ODE right-hand sides `_ode_expP` and `_ode_gammaP`

The state vector is modelled as a function `X : ℕ → ℝ` (only the indices
below `nT*ncolL + 2` are ever read).  Both evaluators first clamp the
buffer in place (`X[X<0] = 0`), reshape the live part into an array with
a padding row of zeros, and fill a derivative vector; the derivative is
modelled componentwise.  The case splits on the column index mirror the
assignment groups of the source loops and are faithful for stage counts
at least 1 (which the class body and `checkpars` always produce). -/

/-- Per-segment death-transition rate `deltaT = _nT/tauT`. -/
def deltaT (p : Par) : ℝ := p.nT / p.tauT

/-- EI progression rate `deltaEI = _nEI/tauEI`. -/
def deltaEI (p : Par) : ℝ := p.nEI / p.tauEI

/-- EE progression rate of `_ode_expP`: constant `_nEE/tauEE` before the
efavirenz action time, multiplied by the Gaussian decay factor from that
time on. -/
def deltaEE_expP (p : Par) (t : ℝ) : ℝ :=
  if t < p.EFAV_time then p.nEE / p.tauEE
  else p.nEE / p.tauEE * Real.exp (-(t - p.EFAV_time) ^ 2 / (2 * p.onset_time ^ 2))

/-- ER progression rate of `_ode_expP`: constant `_nER/tauER` before the
raltegravir action time, Gaussian-modulated from that time on. -/
def deltaER_expP (p : Par) (t : ℝ) : ℝ :=
  if t < p.RALT_time then p.nER / p.tauER
  else p.nER / p.tauER * Real.exp (-(t - p.RALT_time) ^ 2 / (2 * p.onset_time ^ 2))

/-- EE progression rate of `_ode_gammaP` (source line 236): the constant
`_nEE/tauEE`, with no drug modulation. -/
def deltaEE_gammaP (p : Par) : ℝ := p.nEE / p.tauEE

/-- ER progression rate of `_ode_gammaP` (source line 237): the constant
`_nER/tauER`, with no drug modulation. -/
def deltaER_gammaP (p : Par) : ℝ := p.nER / p.tauER

/-- Productive-phase progression rate `deltaP = _nP/tauP` (used by the
gamma variant only). -/
def deltaP (p : Par) : ℝ := p.nP / p.tauP

/-- Current virus concentration (identical in both variants): Gaussian
ramp for `t < 0`, exponential decay afterwards, optional 0.25 dilution
factor from 24 h on. -/
def Virus (p : Par) (t : ℝ) : ℝ :=
  if t < 0 then p.V0 * Real.exp (-(t * t) / (2 * p.onset_time ^ 2))
  else if t < 24 then p.V0 * Real.exp (-(p.c * t))
  else if p.onedaydilution then 0.25 * p.V0 * Real.exp (-(p.c * t))
  else p.V0 * Real.exp (-(p.c * t))

/-- The in-place clamp `X[X<0] = 0` performed at the start of each RHS
call; every later read of the buffer (including `X[-2]`, `X[-1]`) sees
the clamped values. -/
def clampX (X : ℕ → ℝ) : ℕ → ℝ := fun k => if X k < 0 then 0 else X k

/-- Number of columns of the live array in `_ode_expP`:
`nEE+nER+nEI+2`. -/
def ncolL_expP (p : Par) : ℕ := p.nEE + p.nER + p.nEI + 2

/-- Number of columns of the live array in `_ode_gammaP`:
`1+nEE+nER+nEI+nP`. -/
def ncolL_gammaP (p : Par) : ℕ := 1 + p.nEE + p.nER + p.nEI + p.nP

/-- The `live` array of `_ode_expP`: row 0 is the padding row of zeros;
row `i+1`, column `j` is entry `i*ncolL + j` of the clamped state
(`live[1:,:] = reshape(X[:-2], (nT, ncolL))`). -/
def live_expP (p : Par) (X : ℕ → ℝ) (i j : ℕ) : ℝ :=
  if i = 0 then 0 else clampX X ((i - 1) * ncolL_expP p + j)

/-- The `live` array of `_ode_gammaP` (same layout, `ncolL_gammaP`
columns). -/
def live_gammaP (p : Par) (X : ℕ → ℝ) (i j : ℕ) : ℝ :=
  if i = 0 then 0 else clampX X ((i - 1) * ncolL_gammaP p + j)

/-- Column `j` of segment row `i` (`0 ≤ i < nT`) of the derivative filled
by the `_ode_expP` loop: uninfected, first EE, EE chain, first ER, ER
chain, first EI, EI chain, and the single productive column. -/
def dXdt_live_expP (p : Par) (t : ℝ) (X : ℕ → ℝ) (i j : ℕ) : ℝ :=
  if j = 0 then
    -p.beta * live_expP p X (i+1) 0 * Virus p t / p.N
      + p.s * live_expP p X (i+1) 0
      + deltaT p * (live_expP p X i 0 - live_expP p X (i+1) 0)
      + p.fEE * ∑ k in Finset.Ico 1 (p.nEE+1), live_expP p X (i+1) k
      + p.fER * ∑ k in Finset.Ico (p.nEE+1) (p.nEE+p.nER+1), live_expP p X (i+1) k
      + p.fEI * ∑ k in Finset.Ico (p.nEE+p.nER+1) (p.nEE+p.nER+p.nEI+1), live_expP p X (i+1) k
  else if j = 1 then
    p.beta * live_expP p X (i+1) 0 * Virus p t / p.N
      + deltaT p * (live_expP p X i 1 - live_expP p X (i+1) 1)
      - deltaEE_expP p t * live_expP p X (i+1) 1
      + (p.s - p.fEE) * live_expP p X (i+1) 1
      - p.dEE * live_expP p X (i+1) 1
  else if j ≤ p.nEE then
    deltaT p * (live_expP p X i j - live_expP p X (i+1) j)
      + deltaEE_expP p t * (live_expP p X (i+1) (j-1) - live_expP p X (i+1) j)
      + (p.s - p.fEE) * live_expP p X (i+1) j
      - p.dEE * live_expP p X (i+1) j
  else if j = p.nEE + 1 then
    deltaEE_expP p t * live_expP p X (i+1) (j-1)
      + deltaT p * (live_expP p X i j - live_expP p X (i+1) j)
      - deltaER_expP p t * live_expP p X (i+1) j
      + (p.s - p.fER) * live_expP p X (i+1) j
      - p.dER * live_expP p X (i+1) j
  else if j ≤ p.nEE + p.nER then
    deltaT p * (live_expP p X i j - live_expP p X (i+1) j)
      + deltaER_expP p t * (live_expP p X (i+1) (j-1) - live_expP p X (i+1) j)
      + (p.s - p.fER) * live_expP p X (i+1) j
      - p.dER * live_expP p X (i+1) j
  else if j = p.nEE + p.nER + 1 then
    deltaER_expP p t * live_expP p X (i+1) (j-1)
      + deltaT p * (live_expP p X i j - live_expP p X (i+1) j)
      - deltaEI p * live_expP p X (i+1) j
      + (p.s - p.fEI) * live_expP p X (i+1) j
      - p.dEI * live_expP p X (i+1) j
  else if j ≤ p.nEE + p.nER + p.nEI then
    deltaT p * (live_expP p X i j - live_expP p X (i+1) j)
      + deltaEI p * (live_expP p X (i+1) (j-1) - live_expP p X (i+1) j)
      + (p.s - p.fEI) * live_expP p X (i+1) j
      - p.dEI * live_expP p X (i+1) j
  else
    deltaEI p * live_expP p X (i+1) (j-1)
      + deltaT p * (live_expP p X i j - live_expP p X (i+1) j)
      + p.s * live_expP p X (i+1) j
      - p.dP * live_expP p X (i+1) j

/-- `dXdt[-2]` of `_ode_expP`: infection-induced deaths from all eclipse
columns, background deaths out of the last segment for all non-productive
columns, minus disintegration. -/
def dXdt_deadU_expP (p : Par) (X : ℕ → ℝ) : ℝ :=
  p.dEE * ∑ i in Finset.range p.nT, ∑ k in Finset.Ico 1 (p.nEE+1), live_expP p X (i+1) k
    + p.dER * ∑ i in Finset.range p.nT,
        ∑ k in Finset.Ico (p.nEE+1) (p.nEE+p.nER+1), live_expP p X (i+1) k
    + p.dEI * ∑ i in Finset.range p.nT,
        ∑ k in Finset.Ico (p.nEE+p.nER+1) (p.nEE+p.nER+p.nEI+1), live_expP p X (i+1) k
    + deltaT p * ∑ k in Finset.range (p.nEE+p.nER+p.nEI+1), live_expP p X p.nT k
    - p.dD * clampX X (p.nT * ncolL_expP p)

/-- `dXdt[-1]` of `_ode_expP`: productive-phase deaths plus the
last-segment outflow of the productive column, minus disintegration. -/
def dXdt_deadI_expP (p : Par) (X : ℕ → ℝ) : ℝ :=
  p.dP * ∑ i in Finset.range p.nT, live_expP p X (i+1) (p.nEE+p.nER+p.nEI+1)
    + deltaT p * live_expP p X p.nT (p.nEE+p.nER+p.nEI+1)
    - p.dD * clampX X (p.nT * ncolL_expP p + 1)

/-- The full derivative vector of `_ode_expP` at flat index `k`: live
entries at `k < nT*ncolL` (segment `k / ncolL`, column `k % ncolL`), then
the two dead scalars. -/
def dXdt_expP (p : Par) (t : ℝ) (X : ℕ → ℝ) (k : ℕ) : ℝ :=
  if k < p.nT * ncolL_expP p then
    dXdt_live_expP p t X (k / ncolL_expP p) (k % ncolL_expP p)
  else if k = p.nT * ncolL_expP p then dXdt_deadU_expP p X
  else if k = p.nT * ncolL_expP p + 1 then dXdt_deadI_expP p X
  else 0

/-- Column `j` of segment row `i` of the derivative filled by the
`_ode_gammaP` loop: as in the exponential variant but with constant
EE/ER rates, a productive-phase loss `deltaP` in the first P column, and
a chain of `nP` productive columns. -/
def dXdt_live_gammaP (p : Par) (t : ℝ) (X : ℕ → ℝ) (i j : ℕ) : ℝ :=
  if j = 0 then
    -p.beta * live_gammaP p X (i+1) 0 * Virus p t / p.N
      + p.s * live_gammaP p X (i+1) 0
      + deltaT p * (live_gammaP p X i 0 - live_gammaP p X (i+1) 0)
      + p.fEE * ∑ k in Finset.Ico 1 (p.nEE+1), live_gammaP p X (i+1) k
      + p.fER * ∑ k in Finset.Ico (p.nEE+1) (p.nEE+p.nER+1), live_gammaP p X (i+1) k
      + p.fEI * ∑ k in Finset.Ico (p.nEE+p.nER+1) (p.nEE+p.nER+p.nEI+1), live_gammaP p X (i+1) k
  else if j = 1 then
    p.beta * live_gammaP p X (i+1) 0 * Virus p t / p.N
      + deltaT p * (live_gammaP p X i 1 - live_gammaP p X (i+1) 1)
      - deltaEE_gammaP p * live_gammaP p X (i+1) 1
      + (p.s - p.fEE) * live_gammaP p X (i+1) 1
      - p.dEE * live_gammaP p X (i+1) 1
  else if j ≤ p.nEE then
    deltaT p * (live_gammaP p X i j - live_gammaP p X (i+1) j)
      + deltaEE_gammaP p * (live_gammaP p X (i+1) (j-1) - live_gammaP p X (i+1) j)
      + (p.s - p.fEE) * live_gammaP p X (i+1) j
      - p.dEE * live_gammaP p X (i+1) j
  else if j = p.nEE + 1 then
    deltaEE_gammaP p * live_gammaP p X (i+1) (j-1)
      + deltaT p * (live_gammaP p X i j - live_gammaP p X (i+1) j)
      - deltaER_gammaP p * live_gammaP p X (i+1) j
      + (p.s - p.fER) * live_gammaP p X (i+1) j
      - p.dER * live_gammaP p X (i+1) j
  else if j ≤ p.nEE + p.nER then
    deltaT p * (live_gammaP p X i j - live_gammaP p X (i+1) j)
      + deltaER_gammaP p * (live_gammaP p X (i+1) (j-1) - live_gammaP p X (i+1) j)
      + (p.s - p.fER) * live_gammaP p X (i+1) j
      - p.dER * live_gammaP p X (i+1) j
  else if j = p.nEE + p.nER + 1 then
    deltaER_gammaP p * live_gammaP p X (i+1) (j-1)
      + deltaT p * (live_gammaP p X i j - live_gammaP p X (i+1) j)
      - deltaEI p * live_gammaP p X (i+1) j
      + (p.s - p.fEI) * live_gammaP p X (i+1) j
      - p.dEI * live_gammaP p X (i+1) j
  else if j ≤ p.nEE + p.nER + p.nEI then
    deltaT p * (live_gammaP p X i j - live_gammaP p X (i+1) j)
      + deltaEI p * (live_gammaP p X (i+1) (j-1) - live_gammaP p X (i+1) j)
      + (p.s - p.fEI) * live_gammaP p X (i+1) j
      - p.dEI * live_gammaP p X (i+1) j
  else if j = p.nEE + p.nER + p.nEI + 1 then
    deltaEI p * live_gammaP p X (i+1) (j-1)
      + deltaT p * (live_gammaP p X i j - live_gammaP p X (i+1) j)
      - deltaP p * live_gammaP p X (i+1) j
      + p.s * live_gammaP p X (i+1) j
      - p.dP * live_gammaP p X (i+1) j
  else
    deltaT p * (live_gammaP p X i j - live_gammaP p X (i+1) j)
      + deltaP p * (live_gammaP p X (i+1) (j-1) - live_gammaP p X (i+1) j)
      + p.s * live_gammaP p X (i+1) j
      - p.dP * live_gammaP p X (i+1) j

/-- `dXdt[-2]` of `_ode_gammaP` (same expression as the exponential
variant, over the gamma layout). -/
def dXdt_deadU_gammaP (p : Par) (X : ℕ → ℝ) : ℝ :=
  p.dEE * ∑ i in Finset.range p.nT, ∑ k in Finset.Ico 1 (p.nEE+1), live_gammaP p X (i+1) k
    + p.dER * ∑ i in Finset.range p.nT,
        ∑ k in Finset.Ico (p.nEE+1) (p.nEE+p.nER+1), live_gammaP p X (i+1) k
    + p.dEI * ∑ i in Finset.range p.nT,
        ∑ k in Finset.Ico (p.nEE+p.nER+1) (p.nEE+p.nER+p.nEI+1), live_gammaP p X (i+1) k
    + deltaT p * ∑ k in Finset.range (p.nEE+p.nER+p.nEI+1), live_gammaP p X p.nT k
    - p.dD * clampX X (p.nT * ncolL_gammaP p)

/-- `dXdt[-1]` of `_ode_gammaP`: productive-phase deaths over all `nP`
productive columns, the last-segment outflow of those columns, and the
inter-stage progression outflow of the last productive column, minus
disintegration. -/
def dXdt_deadI_gammaP (p : Par) (X : ℕ → ℝ) : ℝ :=
  p.dP * ∑ i in Finset.range p.nT,
      ∑ k in Finset.Ico (p.nEE+p.nER+p.nEI+1) (p.nEE+p.nER+p.nEI+p.nP+1), live_gammaP p X (i+1) k
    + deltaT p * ∑ k in Finset.Ico (p.nEE+p.nER+p.nEI+1) (p.nEE+p.nER+p.nEI+p.nP+1),
        live_gammaP p X p.nT k
    + deltaP p * ∑ i in Finset.range p.nT, live_gammaP p X (i+1) (p.nEE+p.nER+p.nEI+p.nP)
    - p.dD * clampX X (p.nT * ncolL_gammaP p + 1)

/-- The full derivative vector of `_ode_gammaP` at flat index `k`. -/
def dXdt_gammaP (p : Par) (t : ℝ) (X : ℕ → ℝ) (k : ℕ) : ℝ :=
  if k < p.nT * ncolL_gammaP p then
    dXdt_live_gammaP p t X (k / ncolL_gammaP p) (k % ncolL_gammaP p)
  else if k = p.nT * ncolL_gammaP p then dXdt_deadU_gammaP p X
  else if k = p.nT * ncolL_gammaP p + 1 then dXdt_deadI_gammaP p X
  else 0

/-- Stage counts and coefficient values of one RHS evaluation: `rT`,
`rEE`, `rER`, `rEI`, `rP` are the progression rates, `bV` is the
composite infection coefficient `beta*Virus/N`, and the rest are the
growth/failure/death parameters. -/
structure Rates where
  nT : ℕ
  nEE : ℕ
  nER : ℕ
  nEI : ℕ
  nP : ℕ
  rT : ℝ
  rEE : ℝ
  rER : ℝ
  rEI : ℝ
  rP : ℝ
  bV : ℝ
  s : ℝ
  fEE : ℝ
  fER : ℝ
  fEI : ℝ
  dEE : ℝ
  dER : ℝ
  dEI : ℝ
  dP : ℝ
  dD : ℝ

/-- Number of live columns: `1 + nEE + nER + nEI + nP`. -/
def Rates.ncol (r : Rates) : ℕ := 1 + r.nEE + r.nER + r.nEI + r.nP

/-- The common live-column derivative over explicit rates. -/
def gLive (r : Rates) (L : ℕ → ℕ → ℝ) (i j : ℕ) : ℝ :=
  if j = 0 then
    -r.bV * L (i+1) 0
      + r.s * L (i+1) 0
      + r.rT * (L i 0 - L (i+1) 0)
      + r.fEE * ∑ k in Finset.Ico 1 (r.nEE+1), L (i+1) k
      + r.fER * ∑ k in Finset.Ico (r.nEE+1) (r.nEE+r.nER+1), L (i+1) k
      + r.fEI * ∑ k in Finset.Ico (r.nEE+r.nER+1) (r.nEE+r.nER+r.nEI+1), L (i+1) k
  else if j = 1 then
    r.bV * L (i+1) 0
      + r.rT * (L i 1 - L (i+1) 1)
      - r.rEE * L (i+1) 1
      + (r.s - r.fEE) * L (i+1) 1
      - r.dEE * L (i+1) 1
  else if j ≤ r.nEE then
    r.rT * (L i j - L (i+1) j)
      + r.rEE * (L (i+1) (j-1) - L (i+1) j)
      + (r.s - r.fEE) * L (i+1) j
      - r.dEE * L (i+1) j
  else if j = r.nEE + 1 then
    r.rEE * L (i+1) (j-1)
      + r.rT * (L i j - L (i+1) j)
      - r.rER * L (i+1) j
      + (r.s - r.fER) * L (i+1) j
      - r.dER * L (i+1) j
  else if j ≤ r.nEE + r.nER then
    r.rT * (L i j - L (i+1) j)
      + r.rER * (L (i+1) (j-1) - L (i+1) j)
      + (r.s - r.fER) * L (i+1) j
      - r.dER * L (i+1) j
  else if j = r.nEE + r.nER + 1 then
    r.rER * L (i+1) (j-1)
      + r.rT * (L i j - L (i+1) j)
      - r.rEI * L (i+1) j
      + (r.s - r.fEI) * L (i+1) j
      - r.dEI * L (i+1) j
  else if j ≤ r.nEE + r.nER + r.nEI then
    r.rT * (L i j - L (i+1) j)
      + r.rEI * (L (i+1) (j-1) - L (i+1) j)
      + (r.s - r.fEI) * L (i+1) j
      - r.dEI * L (i+1) j
  else if j = r.nEE + r.nER + r.nEI + 1 then
    r.rEI * L (i+1) (j-1)
      + r.rT * (L i j - L (i+1) j)
      - r.rP * L (i+1) j
      + r.s * L (i+1) j
      - r.dP * L (i+1) j
  else
    r.rT * (L i j - L (i+1) j)
      + r.rP * (L (i+1) (j-1) - L (i+1) j)
      + r.s * L (i+1) j
      - r.dP * L (i+1) j

/-- The common dead-uninfected derivative over explicit rates. -/
def gDeadU (r : Rates) (L : ℕ → ℕ → ℝ) (xdU : ℝ) : ℝ :=
  r.dEE * ∑ i in Finset.range r.nT, ∑ k in Finset.Ico 1 (r.nEE+1), L (i+1) k
    + r.dER * ∑ i in Finset.range r.nT,
        ∑ k in Finset.Ico (r.nEE+1) (r.nEE+r.nER+1), L (i+1) k
    + r.dEI * ∑ i in Finset.range r.nT,
        ∑ k in Finset.Ico (r.nEE+r.nER+1) (r.nEE+r.nER+r.nEI+1), L (i+1) k
    + r.rT * ∑ k in Finset.range (r.nEE+r.nER+r.nEI+1), L r.nT k
    - r.dD * xdU

/-- The common dead-infected derivative over explicit rates (`rP = 0` and
`nP = 1` give the exponential variant). -/
def gDeadI (r : Rates) (L : ℕ → ℕ → ℝ) (xdI : ℝ) : ℝ :=
  r.dP * ∑ i in Finset.range r.nT,
      ∑ k in Finset.Ico (r.nEE+r.nER+r.nEI+1) r.ncol, L (i+1) k
    + r.rT * ∑ k in Finset.Ico (r.nEE+r.nER+r.nEI+1) r.ncol, L r.nT k
    + r.rP * ∑ i in Finset.range r.nT, L (i+1) (r.nEE+r.nER+r.nEI+r.nP)
    - r.dD * xdI

/-- The rate record realized by `_ode_expP` at time `t` (productive width
1, no productive progression). -/
def expRates (p : Par) (t : ℝ) : Rates where
  nT := p.nT
  nEE := p.nEE
  nER := p.nER
  nEI := p.nEI
  nP := 1
  rT := deltaT p
  rEE := deltaEE_expP p t
  rER := deltaER_expP p t
  rEI := deltaEI p
  rP := 0
  bV := p.beta * Virus p t / p.N
  s := p.s
  fEE := p.fEE
  fER := p.fER
  fEI := p.fEI
  dEE := p.dEE
  dER := p.dER
  dEI := p.dEI
  dP := p.dP
  dD := p.dD

/-- The rate record realized by `_ode_gammaP` at time `t`. -/
def gammaRates (p : Par) (t : ℝ) : Rates where
  nT := p.nT
  nEE := p.nEE
  nER := p.nER
  nEI := p.nEI
  nP := p.nP
  rT := deltaT p
  rEE := deltaEE_gammaP p
  rER := deltaER_gammaP p
  rEI := deltaEI p
  rP := deltaP p
  bV := p.beta * Virus p t / p.N
  s := p.s
  fEE := p.fEE
  fER := p.fER
  fEI := p.fEI
  dEE := p.dEE
  dER := p.dER
  dEI := p.dEI
  dP := p.dP
  dD := p.dD

/-! ### Concrete parameter states and state vectors for counterexamples -/

/-- A minimal configuration: one stage per phase, unit lifetimes, all
optional rates off, efavirenz acting from `t = 0`. -/
def cP1 : Par :=
  { par0 with
    nT := 1, nEE := 1, nER := 1, nEI := 1, nP := 1
    tauT := 1, sigmaT := 1, tauEE := 1, sigmaEE := 1, tauER := 1, sigmaER := 1
    tauEI := 1, sigmaEI := 1, tauP := 1, sigmaP := 1
    s := 0, beta := 0, dD := 0
    dEE := 0, fEE := 0, dER := 0, fER := 0, dEI := 0, fEI := 0, dP := 0
    EFAV_time := 0
    deathtype := PyVal.str "gamma" }

/-- As `cP1` but with the drug-action times back at their (never reached)
defaults. -/
def cP2 : Par := { cP1 with EFAV_time := 1000000 }

/-- As `cP2` but with a positive dead-cell disintegration rate. -/
def cP3 : Par := { cP2 with dD := 1 }

/-- State with one cell in the first EE column of the first segment. -/
def X1 : ℕ → ℝ := fun k => if k = 1 then 1 else 0

/-- State with one cell in the (single) productive column of the first
segment (flat index 4 in the common `ncolL = 5` layout of `cP1`). -/
def X2 : ℕ → ℝ := fun k => if k = 4 then 1 else 0

/-- State with one dead-uninfected cell (flat index 5 in the `cP3`
layout) and empty live compartments. -/
def X3 : ℕ → ℝ := fun k => if k = 5 then 1 else 0

lemma one_le_derive_n (tau sigma : ℝ) : 1 ≤ derive_n tau sigma :=
  le_max_left _ _

lemma derive_sigma_sq (tau : ℝ) (n : ℕ) :
    derive_sigma tau n ^ 2 = tau ^ 2 / n :=
  Real.sq_sqrt (by positivity)

/-- The stage-count derivation is a fixed point after one step: deriving
again from the adjusted stddev returns the same count. -/
lemma derive_n_fix (tau : ℝ) (n : ℕ) (ht : 0 < tau) (hn : 1 ≤ n) :
    derive_n tau (derive_sigma tau n) = n := by
  have hn0 : (0 : ℝ) < n := by exact_mod_cast Nat.lt_of_lt_of_le Nat.zero_lt_one hn
  have hsq : (tau / derive_sigma tau n) ^ 2 = (n : ℝ) := by
    rw [div_pow, derive_sigma_sq, div_div_eq_mul_div, mul_comm, mul_div_assoc,
      div_self (pow_ne_zero 2 ht.ne'), mul_one]
  unfold derive_n
  rw [hsq, round_natCast, Int.toNat_natCast]
  omega

/-- C8: for every `deathtype` other than `exp` and `gamma`, `checkpars`
terminates the process fatally (`sys.exit()`, modelled as `none`): no
parameter state is produced, so no integration can ever be attempted. -/
theorem checkpars_invalid_deathtype_fatal (p : Par)
    (h1 : p.deathtype ≠ PyVal.str "exp") (h2 : p.deathtype ≠ PyVal.str "gamma") :
    checkpars p = none := by
  unfold checkpars
  rw [if_neg h1, if_neg h2]

/-- Witness for `checkpars_invalid_deathtype_fatal` at a concrete invalid
mode string. -/
theorem checkpars_invalid_deathtype_fatal_w :
    checkpars { par0 with deathtype := PyVal.str "linear" } = none :=
  checkpars_invalid_deathtype_fatal { par0 with deathtype := PyVal.str "linear" }
    (by simp) (by simp)

/-- C7: in `exp` mode the derivation always forces the productive-phase
stage count to exactly `1` and `sigmaP` to exactly `tauP`, whatever the
configured `sigmaP` was. -/
theorem checkpars_exp_forces_single_stage (p : Par)
    (hd : p.deathtype = PyVal.str "exp") :
    ∃ q, checkpars p = some q ∧ q.nP = 1 ∧ q.sigmaP = p.tauP := by
  unfold checkpars
  rw [if_pos hd]
  exact ⟨_, rfl, rfl, rfl⟩

/-- Witness for `checkpars_exp_forces_single_stage` at the default
parameters (which have `deathtype = "exp"` and `sigmaP = 3 ≠ tauP`). -/
theorem checkpars_exp_forces_single_stage_w :
    ∃ q, checkpars par0 = some q ∧ q.nP = 1 ∧ q.sigmaP = par0.tauP :=
  checkpars_exp_forces_single_stage par0 rfl

/-- C6: for each of the four lifetime pairs (T, EE, ER, EI) with positive
target mean and stddev, `checkpars` sets the stage count to
`max 1 (round ((tau/sigma)^2))` and overwrites the stddev with
`sqrt(tau^2/n)`, each pair computed from its own inputs only. -/
theorem checkpars_stage_derivation (p : Par)
    (hT : 0 < p.tauT) (hsT : 0 < p.sigmaT)
    (hTE : 0 < p.tauEE) (hsE : 0 < p.sigmaEE)
    (hTR : 0 < p.tauER) (hsR : 0 < p.sigmaER)
    (hTI : 0 < p.tauEI) (hsI : 0 < p.sigmaEI)
    (hd : p.deathtype = PyVal.str "exp" ∨ p.deathtype = PyVal.str "gamma") :
    ∃ q, checkpars p = some q
      ∧ q.nT = max 1 (round ((p.tauT / p.sigmaT) ^ 2)).toNat
      ∧ q.sigmaT = Real.sqrt (p.tauT ^ 2 / q.nT)
      ∧ q.nEE = max 1 (round ((p.tauEE / p.sigmaEE) ^ 2)).toNat
      ∧ q.sigmaEE = Real.sqrt (p.tauEE ^ 2 / q.nEE)
      ∧ q.nER = max 1 (round ((p.tauER / p.sigmaER) ^ 2)).toNat
      ∧ q.sigmaER = Real.sqrt (p.tauER ^ 2 / q.nER)
      ∧ q.nEI = max 1 (round ((p.tauEI / p.sigmaEI) ^ 2)).toNat
      ∧ q.sigmaEI = Real.sqrt (p.tauEI ^ 2 / q.nEI) := by
  rcases hd with h | h
  · unfold checkpars
    rw [if_pos h]
    exact ⟨_, rfl, rfl, rfl, rfl, rfl, rfl, rfl, rfl, rfl⟩
  · unfold checkpars
    rw [if_neg (by rw [h]; simp), if_pos h]
    exact ⟨_, rfl, rfl, rfl, rfl, rfl, rfl, rfl, rfl, rfl⟩

/-- Witness for `checkpars_stage_derivation` at the default parameters. -/
theorem checkpars_stage_derivation_w :
    ∃ q, checkpars par0 = some q
      ∧ q.nT = max 1 (round ((par0.tauT / par0.sigmaT) ^ 2)).toNat
      ∧ q.sigmaT = Real.sqrt (par0.tauT ^ 2 / q.nT)
      ∧ q.nEE = max 1 (round ((par0.tauEE / par0.sigmaEE) ^ 2)).toNat
      ∧ q.sigmaEE = Real.sqrt (par0.tauEE ^ 2 / q.nEE)
      ∧ q.nER = max 1 (round ((par0.tauER / par0.sigmaER) ^ 2)).toNat
      ∧ q.sigmaER = Real.sqrt (par0.tauER ^ 2 / q.nER)
      ∧ q.nEI = max 1 (round ((par0.tauEI / par0.sigmaEI) ^ 2)).toNat
      ∧ q.sigmaEI = Real.sqrt (par0.tauEI ^ 2 / q.nEI) :=
  checkpars_stage_derivation par0 (by norm_num [par0]) (by norm_num [par0])
    (by norm_num [par0]) (by norm_num [par0]) (by norm_num [par0])
    (by norm_num [par0]) (by norm_num [par0]) (by norm_num [par0]) (Or.inl rfl)

/-- C5: the stage-count re-derivation is idempotent.  For positive target
means and stddevs, running `checkpars` a second time on its own output
changes nothing: every stage count and adjusted stddev (T, EE, ER, EI,
and P in gamma mode) is already a fixed point after one run. -/
theorem checkpars_idempotent (p : Par)
    (hT : 0 < p.tauT) (hsT : 0 < p.sigmaT)
    (hTE : 0 < p.tauEE) (hsE : 0 < p.sigmaEE)
    (hTR : 0 < p.tauER) (hsR : 0 < p.sigmaER)
    (hTI : 0 < p.tauEI) (hsI : 0 < p.sigmaEI)
    (hTP : 0 < p.tauP) (hsP : 0 < p.sigmaP) :
    (checkpars p).bind checkpars = checkpars p := by
  unfold checkpars
  split_ifs with h1 h2
  · rw [Option.some_bind]
    simp only [h1, if_pos]
    refine congrArg some (Par.ext ?_ ?_ ?_ ?_ ?_ ?_ ?_ ?_ ?_ ?_ ?_ ?_ ?_ ?_ ?_
      ?_ ?_ ?_ ?_ ?_ ?_ ?_ ?_ ?_ ?_ ?_ ?_ ?_ ?_ ?_ ?_ ?_ ?_) <;>
      simp only [derive_n_fix p.tauT _ hT (one_le_derive_n _ _),
        derive_n_fix p.tauEE _ hTE (one_le_derive_n _ _),
        derive_n_fix p.tauER _ hTR (one_le_derive_n _ _),
        derive_n_fix p.tauEI _ hTI (one_le_derive_n _ _)]
  · rw [Option.some_bind]
    simp only [h2, if_pos, if_neg (show ¬(PyVal.str "gamma" = PyVal.str "exp") by simp)]
    refine congrArg some (Par.ext ?_ ?_ ?_ ?_ ?_ ?_ ?_ ?_ ?_ ?_ ?_ ?_ ?_ ?_ ?_
      ?_ ?_ ?_ ?_ ?_ ?_ ?_ ?_ ?_ ?_ ?_ ?_ ?_ ?_ ?_ ?_ ?_ ?_) <;>
      simp only [derive_n_fix p.tauT _ hT (one_le_derive_n _ _),
        derive_n_fix p.tauEE _ hTE (one_le_derive_n _ _),
        derive_n_fix p.tauER _ hTR (one_le_derive_n _ _),
        derive_n_fix p.tauEI _ hTI (one_le_derive_n _ _),
        derive_n_fix p.tauP _ hTP (one_le_derive_n _ _)]
  · rfl

/-- Witness for `checkpars_idempotent` at the default parameters. -/
theorem checkpars_idempotent_w :
    (checkpars par0).bind checkpars = checkpars par0 :=
  checkpars_idempotent par0 (by norm_num [par0]) (by norm_num [par0])
    (by norm_num [par0]) (by norm_num [par0]) (by norm_num [par0])
    (by norm_num [par0]) (by norm_num [par0]) (by norm_num [par0])
    (by norm_num [par0]) (by norm_num [par0])

/-- C10: `setpars` coerces through `float()`, so `setpars` with
`deathtype='gamma'` raises (`ValueError`) and never selects the gamma
variant; any value whose `float()` coercion succeeds leaves a float in
`deathtype`, which the subsequent validation rejects fatally (a float
compares unequal to both mode strings); and assigning the attribute
directly with the string `gamma` (bypassing the setter) does select the
gamma variant. -/
theorem setpars_never_selects_gamma (p : Par) (v : PyVal) :
    setpars_deathtype p (PyVal.str "gamma") = none ∧
    (∀ x : ℝ, pyfloat v = some x → setpars_deathtype p v = some none) ∧
    (∃ q, checkpars { p with deathtype := PyVal.str "gamma" } = some q) := by
  refine ⟨?_, ?_, ?_⟩
  · rfl
  · intro x hx
    unfold setpars_deathtype
    rw [hx]
    refine congrArg some (checkpars_invalid_deathtype_fatal _ ?_ ?_) <;> simp
  · have hq : checkpars { p with deathtype := PyVal.str "gamma" }
        = some { { p with deathtype := PyVal.str "gamma" } with
          nT := derive_n p.tauT p.sigmaT
          sigmaT := derive_sigma p.tauT (derive_n p.tauT p.sigmaT)
          nEE := derive_n p.tauEE p.sigmaEE
          sigmaEE := derive_sigma p.tauEE (derive_n p.tauEE p.sigmaEE)
          nER := derive_n p.tauER p.sigmaER
          sigmaER := derive_sigma p.tauER (derive_n p.tauER p.sigmaER)
          nEI := derive_n p.tauEI p.sigmaEI
          sigmaEI := derive_sigma p.tauEI (derive_n p.tauEI p.sigmaEI)
          nP := derive_n p.tauP p.sigmaP
          sigmaP := derive_sigma p.tauP (derive_n p.tauP p.sigmaP) } := by
      unfold checkpars
      rw [if_neg (by simp), if_pos (by simp)]
    exact ⟨_, hq⟩

/-- Witness for `setpars_never_selects_gamma`: at the default parameters,
passing the float `1` through the setter succeeds in `float()` and is
then rejected fatally by the validation. -/
theorem setpars_never_selects_gamma_w :
    setpars_deathtype par0 (PyVal.num 1) = some none :=
  (setpars_never_selects_gamma par0 (PyVal.num 1)).2.1 1 rfl

/-- Counterexample to C4 as stated: at the all-zero state the infected
fraction is the unguarded division `0/0`, which in NumPy is `nan`
(modelled `none`), not `0`. -/
theorem summary_zero_fracinf_cex :
    (getsummaryrow par0 (fun _ => 0)).fracinf ≠ some 0 := by
  simp [getsummaryrow, npdiv]

/-- C4 amended: at an all-zero state vector no exception is raised and
the guarded dead-fraction-of-infected evaluates to `0`, but the infected
fraction is the unguarded NumPy division `0/0`, which evaluates to `nan`
(modelled as `none`), not to `0`. -/
theorem summary_zero_state (p : Par) :
    (getsummaryrow p (fun _ => 0)).fracinf = none ∧
    (getsummaryrow p (fun _ => 0)).fracdeadinf = 0 := by
  constructor <;> simp [getsummaryrow, npdiv]

/-! ## A rate-parameterized common form of the two RHS loops

The two source loops differ only in the values of the progression rates
(time-modulated EE/ER rates in the exponential variant, a constant
`deltaP` that is absent — i.e. zero — in the exponential variant) and in
the productive-phase width.  `gLive`, `gDeadU` and `gDeadI` express the
loop body once over an explicit rate record; lemmas below prove each
variant pointwise equal to an instantiation.  All shared proofs (mass
balance, dead-cell monotonicity, the `nP = 1` comparison) are carried out
on this form. -/

/-- A sum over a one-element `Ico` interval. -/
lemma sum_Ico_single (a b : ℕ) (hb : b = a + 1) (g : ℕ → ℝ) :
    ∑ j in Finset.Ico a b, g j = g a := by
  subst hb
  rw [Finset.sum_Ico_succ_top (le_refl a), Finset.Ico_self, Finset.sum_empty,
    zero_add]

/-- Telescoping of adjacent differences over an `Ico` interval starting
at a positive index. -/
lemma sum_Ico_telescope (g : ℕ → ℝ) (a b : ℕ) (ha : 1 ≤ a) (hab : a ≤ b) :
    ∑ j in Finset.Ico a b, (g (j-1) - g j) = g (a-1) - g (b-1) := by
  induction b, hab using Nat.le_induction with
  | base => simp [Finset.Ico_self]
  | succ b hb ih =>
      rw [Finset.sum_Ico_succ_top hb, ih, show b + 1 - 1 = b from by omega]
      ring

/-- Reindexing a sum over a rectangle from flat (div/mod) to nested
form. -/
lemma sum_range_mul_divmod (n ncol : ℕ) (g : ℕ → ℕ → ℝ) :
    ∑ k in Finset.range (n * ncol), g (k / ncol) (k % ncol)
      = ∑ i in Finset.range n, ∑ j in Finset.range ncol, g i j := by
  induction n with
  | zero => simp
  | succ n ih =>
      rcases Nat.eq_zero_or_pos ncol with hc | hc
      · simp [hc]
      · rw [Nat.succ_mul, Finset.range_eq_Ico,
          ← Finset.sum_Ico_consecutive (fun k => g (k / ncol) (k % ncol))
            (Nat.zero_le (n * ncol)) (Nat.le_add_right (n * ncol) ncol),
          ← Finset.range_eq_Ico, ih, Finset.sum_range_succ,
          Finset.sum_Ico_eq_sum_range,
          show n * ncol + ncol - n * ncol = ncol from by omega]
        congr 1
        refine Finset.sum_congr rfl ?_
        intro j hj
        have hjlt : j < ncol := Finset.mem_range.mp hj
        have hd : (n * ncol + j) / ncol = n := by
          rw [Nat.mul_comm n ncol, Nat.add_comm (ncol * n) j,
            Nat.add_mul_div_left j n hc, Nat.div_eq_of_lt hjlt, Nat.zero_add]
        have hm2 : (n * ncol + j) % ncol = j := by
          rw [Nat.mul_comm n ncol, Nat.add_comm (ncol * n) j,
            Nat.add_mul_mod_self_left, Nat.mod_eq_of_lt hjlt]
        rw [hd, hm2]

/-- Splitting a sum over the live columns `range (1+a+b+c+m)` into the
nine assignment groups of the RHS loops (three singleton first-columns,
three chains, the first productive column, the productive chain, and
column 0). -/
lemma sum_range_ncol_split (a b c m : ℕ) (ha : 1 ≤ a) (hb : 1 ≤ b)
    (hc : 1 ≤ c) (hm : 1 ≤ m) (g : ℕ → ℝ) :
    ∑ j in Finset.range (1+a+b+c+m), g j
      = g 0 + g 1 + ∑ j in Finset.Ico 2 (a+1), g j
        + g (a+1) + ∑ j in Finset.Ico (a+2) (a+b+1), g j
        + g (a+b+1) + ∑ j in Finset.Ico (a+b+2) (a+b+c+1), g j
        + g (a+b+c+1) + ∑ j in Finset.Ico (a+b+c+2) (1+a+b+c+m), g j := by
  rw [Finset.range_eq_Ico,
    ← Finset.sum_Ico_consecutive g (show 0 ≤ 1 by omega) (show 1 ≤ 1+a+b+c+m by omega),
    ← Finset.sum_Ico_consecutive g (show 1 ≤ 2 by omega) (show 2 ≤ 1+a+b+c+m by omega),
    ← Finset.sum_Ico_consecutive g (show 2 ≤ a+1 by omega) (show a+1 ≤ 1+a+b+c+m by omega),
    ← Finset.sum_Ico_consecutive g (show a+1 ≤ a+2 by omega) (show a+2 ≤ 1+a+b+c+m by omega),
    ← Finset.sum_Ico_consecutive g (show a+2 ≤ a+b+1 by omega) (show a+b+1 ≤ 1+a+b+c+m by omega),
    ← Finset.sum_Ico_consecutive g (show a+b+1 ≤ a+b+2 by omega) (show a+b+2 ≤ 1+a+b+c+m by omega),
    ← Finset.sum_Ico_consecutive g (show a+b+2 ≤ a+b+c+1 by omega) (show a+b+c+1 ≤ 1+a+b+c+m by omega),
    ← Finset.sum_Ico_consecutive g (show a+b+c+1 ≤ a+b+c+2 by omega) (show a+b+c+2 ≤ 1+a+b+c+m by omega),
    sum_Ico_single 0 1 rfl g, sum_Ico_single 1 2 rfl g,
    sum_Ico_single (a+1) (a+2) rfl g, sum_Ico_single (a+b+1) (a+b+2) rfl g,
    sum_Ico_single (a+b+c+1) (a+b+c+2) rfl g]
  ring

lemma ncol_expRates (p : Par) (t : ℝ) : (expRates p t).ncol = ncolL_expP p := by
  simp only [Rates.ncol, expRates, ncolL_expP]
  omega

lemma ncol_gammaRates (p : Par) (t : ℝ) : (gammaRates p t).ncol = ncolL_gammaP p := rfl

/-- `_ode_expP` live columns agree with the common form at the
exponential rate record (pointwise, on the columns of its layout). -/
lemma dXdt_live_expP_eq (p : Par) (t : ℝ) (X : ℕ → ℝ) (i j : ℕ)
    (hj : j < ncolL_expP p) :
    dXdt_live_expP p t X i j = gLive (expRates p t) (live_expP p X) i j := by
  have hcol : j ≤ p.nEE + p.nER + p.nEI + 1 := by
    unfold ncolL_expP at hj
    omega
  unfold dXdt_live_expP gLive expRates
  simp only
  split_ifs
  all_goals first
  | ring1
  | (exfalso; omega)

/-- `_ode_gammaP` live columns agree with the common form at the gamma
rate record. -/
lemma dXdt_live_gammaP_eq (p : Par) (t : ℝ) (X : ℕ → ℝ) (i j : ℕ) :
    dXdt_live_gammaP p t X i j = gLive (gammaRates p t) (live_gammaP p X) i j := by
  unfold dXdt_live_gammaP gLive gammaRates
  simp only
  split_ifs <;> ring

/-- `_ode_expP` dead-uninfected agrees with the common form. -/
lemma dXdt_deadU_expP_eq (p : Par) (t : ℝ) (X : ℕ → ℝ) :
    dXdt_deadU_expP p X
      = gDeadU (expRates p t) (live_expP p X) (clampX X (p.nT * ncolL_expP p)) := rfl

/-- `_ode_gammaP` dead-uninfected agrees with the common form. -/
lemma dXdt_deadU_gammaP_eq (p : Par) (t : ℝ) (X : ℕ → ℝ) :
    dXdt_deadU_gammaP p X
      = gDeadU (gammaRates p t) (live_gammaP p X) (clampX X (p.nT * ncolL_gammaP p)) := rfl

/-- `_ode_expP` dead-infected agrees with the common form (`rP = 0`
contributes nothing and the productive window is the single column
`nEE+nER+nEI+1`). -/
lemma dXdt_deadI_expP_eq (p : Par) (t : ℝ) (X : ℕ → ℝ) :
    dXdt_deadI_expP p X
      = gDeadI (expRates p t) (live_expP p X) (clampX X (p.nT * ncolL_expP p + 1)) := by
  unfold dXdt_deadI_expP gDeadI
  have h1 : (expRates p t).ncol = (p.nEE + p.nER + p.nEI + 1) + 1 := by
    simp only [Rates.ncol, expRates]
    omega
  rw [h1]
  simp only [expRates]
  rw [sum_Ico_single (p.nEE + p.nER + p.nEI + 1) _ rfl
    (fun k => live_expP p X p.nT k)]
  rw [Finset.sum_congr rfl
    (fun i _ => sum_Ico_single (p.nEE + p.nER + p.nEI + 1) _ rfl
      (fun k => live_expP p X (i+1) k))]
  ring

/-- `_ode_gammaP` dead-infected agrees with the common form. -/
lemma dXdt_deadI_gammaP_eq (p : Par) (t : ℝ) (X : ℕ → ℝ) :
    dXdt_deadI_gammaP p X
      = gDeadI (gammaRates p t) (live_gammaP p X) (clampX X (p.nT * ncolL_gammaP p + 1)) := by
  unfold dXdt_deadI_gammaP gDeadI
  have h1 : (gammaRates p t).ncol = p.nEE + p.nER + p.nEI + p.nP + 1 := by
    simp only [Rates.ncol, gammaRates]
    omega
  rw [h1]
  simp only [gammaRates]

/-! ### Branch values of `gLive` -/

lemma gLive_col0 (r : Rates) (L : ℕ → ℕ → ℝ) (i : ℕ) :
    gLive r L i 0
      = -r.bV * L (i+1) 0 + r.s * L (i+1) 0 + r.rT * (L i 0 - L (i+1) 0)
        + r.fEE * ∑ k in Finset.Ico 1 (r.nEE+1), L (i+1) k
        + r.fER * ∑ k in Finset.Ico (r.nEE+1) (r.nEE+r.nER+1), L (i+1) k
        + r.fEI * ∑ k in Finset.Ico (r.nEE+r.nER+1) (r.nEE+r.nER+r.nEI+1), L (i+1) k := by
  unfold gLive
  rw [if_pos rfl]

lemma gLive_col1 (r : Rates) (L : ℕ → ℕ → ℝ) (i : ℕ) :
    gLive r L i 1
      = r.bV * L (i+1) 0 + r.rT * (L i 1 - L (i+1) 1) - r.rEE * L (i+1) 1
        + (r.s - r.fEE) * L (i+1) 1 - r.dEE * L (i+1) 1 := by
  unfold gLive
  rw [if_neg (by omega), if_pos rfl]

lemma gLive_colEE (r : Rates) (L : ℕ → ℕ → ℝ) (i j : ℕ)
    (h2 : 2 ≤ j) (hj : j ≤ r.nEE) :
    gLive r L i j
      = r.rT * (L i j - L (i+1) j) + r.rEE * (L (i+1) (j-1) - L (i+1) j)
        + (r.s - r.fEE) * L (i+1) j - r.dEE * L (i+1) j := by
  have c0 : ¬ (j = 0) := by omega
  have c1 : ¬ (j = 1) := by omega
  unfold gLive
  rw [if_neg c0, if_neg c1, if_pos hj]

lemma gLive_colER1 (r : Rates) (L : ℕ → ℕ → ℝ) (i : ℕ) (hEE : 1 ≤ r.nEE) :
    gLive r L i (r.nEE+1)
      = r.rEE * L (i+1) r.nEE
        + r.rT * (L i (r.nEE+1) - L (i+1) (r.nEE+1))
        - r.rER * L (i+1) (r.nEE+1)
        + (r.s - r.fER) * L (i+1) (r.nEE+1) - r.dER * L (i+1) (r.nEE+1) := by
  have c0 : ¬ (r.nEE + 1 = 0) := by omega
  have c1 : ¬ (r.nEE + 1 = 1) := by omega
  have c2 : ¬ (r.nEE + 1 ≤ r.nEE) := by omega
  unfold gLive
  rw [if_neg c0, if_neg c1, if_neg c2, if_pos rfl]
  simp only [Nat.add_sub_cancel]

lemma gLive_colER (r : Rates) (L : ℕ → ℕ → ℝ) (i j : ℕ)
    (hjl : r.nEE+2 ≤ j) (hjr : j ≤ r.nEE + r.nER) :
    gLive r L i j
      = r.rT * (L i j - L (i+1) j) + r.rER * (L (i+1) (j-1) - L (i+1) j)
        + (r.s - r.fER) * L (i+1) j - r.dER * L (i+1) j := by
  have c0 : ¬ (j = 0) := by omega
  have c1 : ¬ (j = 1) := by omega
  have c2 : ¬ (j ≤ r.nEE) := by omega
  have c3 : ¬ (j = r.nEE + 1) := by omega
  unfold gLive
  rw [if_neg c0, if_neg c1, if_neg c2, if_neg c3, if_pos hjr]

lemma gLive_colEI1 (r : Rates) (L : ℕ → ℕ → ℝ) (i : ℕ) (hER : 1 ≤ r.nER) :
    gLive r L i (r.nEE+r.nER+1)
      = r.rER * L (i+1) (r.nEE+r.nER)
        + r.rT * (L i (r.nEE+r.nER+1) - L (i+1) (r.nEE+r.nER+1))
        - r.rEI * L (i+1) (r.nEE+r.nER+1)
        + (r.s - r.fEI) * L (i+1) (r.nEE+r.nER+1)
        - r.dEI * L (i+1) (r.nEE+r.nER+1) := by
  have c0 : ¬ (r.nEE + r.nER + 1 = 0) := by omega
  have c1 : ¬ (r.nEE + r.nER + 1 = 1) := by omega
  have c2 : ¬ (r.nEE + r.nER + 1 ≤ r.nEE) := by omega
  have c3 : ¬ (r.nEE + r.nER + 1 = r.nEE + 1) := by omega
  have c4 : ¬ (r.nEE + r.nER + 1 ≤ r.nEE + r.nER) := by omega
  unfold gLive
  rw [if_neg c0, if_neg c1, if_neg c2, if_neg c3, if_neg c4, if_pos rfl]
  simp only [Nat.add_sub_cancel]

lemma gLive_colEI (r : Rates) (L : ℕ → ℕ → ℝ) (i j : ℕ)
    (hjl : r.nEE+r.nER+2 ≤ j) (hjr : j ≤ r.nEE + r.nER + r.nEI) :
    gLive r L i j
      = r.rT * (L i j - L (i+1) j) + r.rEI * (L (i+1) (j-1) - L (i+1) j)
        + (r.s - r.fEI) * L (i+1) j - r.dEI * L (i+1) j := by
  have c0 : ¬ (j = 0) := by omega
  have c1 : ¬ (j = 1) := by omega
  have c2 : ¬ (j ≤ r.nEE) := by omega
  have c3 : ¬ (j = r.nEE + 1) := by omega
  have c4 : ¬ (j ≤ r.nEE + r.nER) := by omega
  have c5 : ¬ (j = r.nEE + r.nER + 1) := by omega
  unfold gLive
  rw [if_neg c0, if_neg c1, if_neg c2, if_neg c3, if_neg c4, if_neg c5,
    if_pos hjr]

lemma gLive_colP1 (r : Rates) (L : ℕ → ℕ → ℝ) (i : ℕ) (hEI : 1 ≤ r.nEI) :
    gLive r L i (r.nEE+r.nER+r.nEI+1)
      = r.rEI * L (i+1) (r.nEE+r.nER+r.nEI)
        + r.rT * (L i (r.nEE+r.nER+r.nEI+1) - L (i+1) (r.nEE+r.nER+r.nEI+1))
        - r.rP * L (i+1) (r.nEE+r.nER+r.nEI+1)
        + r.s * L (i+1) (r.nEE+r.nER+r.nEI+1)
        - r.dP * L (i+1) (r.nEE+r.nER+r.nEI+1) := by
  have c0 : ¬ (r.nEE + r.nER + r.nEI + 1 = 0) := by omega
  have c1 : ¬ (r.nEE + r.nER + r.nEI + 1 = 1) := by omega
  have c2 : ¬ (r.nEE + r.nER + r.nEI + 1 ≤ r.nEE) := by omega
  have c3 : ¬ (r.nEE + r.nER + r.nEI + 1 = r.nEE + 1) := by omega
  have c4 : ¬ (r.nEE + r.nER + r.nEI + 1 ≤ r.nEE + r.nER) := by omega
  have c5 : ¬ (r.nEE + r.nER + r.nEI + 1 = r.nEE + r.nER + 1) := by omega
  have c6 : ¬ (r.nEE + r.nER + r.nEI + 1 ≤ r.nEE + r.nER + r.nEI) := by omega
  unfold gLive
  rw [if_neg c0, if_neg c1, if_neg c2, if_neg c3, if_neg c4, if_neg c5,
    if_neg c6, if_pos rfl]
  simp only [Nat.add_sub_cancel]

lemma gLive_colP (r : Rates) (L : ℕ → ℕ → ℝ) (i j : ℕ)
    (hjl : r.nEE+r.nER+r.nEI+2 ≤ j) :
    gLive r L i j
      = r.rT * (L i j - L (i+1) j) + r.rP * (L (i+1) (j-1) - L (i+1) j)
        + r.s * L (i+1) j - r.dP * L (i+1) j := by
  have c0 : ¬ (j = 0) := by omega
  have c1 : ¬ (j = 1) := by omega
  have c2 : ¬ (j ≤ r.nEE) := by omega
  have c3 : ¬ (j = r.nEE + 1) := by omega
  have c4 : ¬ (j ≤ r.nEE + r.nER) := by omega
  have c5 : ¬ (j = r.nEE + r.nER + 1) := by omega
  have c6 : ¬ (j ≤ r.nEE + r.nER + r.nEI) := by omega
  have c7 : ¬ (j = r.nEE + r.nER + r.nEI + 1) := by omega
  unfold gLive
  rw [if_neg c0, if_neg c1, if_neg c2, if_neg c3, if_neg c4, if_neg c5,
    if_neg c6, if_neg c7]

/-- Sum of one intra-phase chain of the loop: the exchange, telescoping
progression, growth and death contributions. -/
lemma sum_chain (L : ℕ → ℕ → ℝ) (i u v : ℕ) (hu : 1 ≤ u) (huv : u ≤ v)
    (rT rX sf d : ℝ) :
    ∑ j in Finset.Ico u v,
        (rT * (L i j - L (i+1) j) + rX * (L (i+1) (j-1) - L (i+1) j)
          + sf * L (i+1) j - d * L (i+1) j)
      = rT * ((∑ j in Finset.Ico u v, L i j) - ∑ j in Finset.Ico u v, L (i+1) j)
        + rX * (L (i+1) (u-1) - L (i+1) (v-1))
        + sf * ∑ j in Finset.Ico u v, L (i+1) j
        - d * ∑ j in Finset.Ico u v, L (i+1) j := by
  rw [Finset.sum_sub_distrib, Finset.sum_add_distrib, Finset.sum_add_distrib,
    ← Finset.mul_sum, ← Finset.mul_sum, ← Finset.mul_sum, ← Finset.mul_sum,
    sum_Ico_telescope (fun k => L (i+1) k) u v hu huv, Finset.sum_sub_distrib]

/-- Sum of one full row of `gLive` (all columns of one death-hazard
segment): all intra-row transfers cancel, leaving growth, the death
losses of each phase, the net exchange with the neighbouring segments,
and the productive-phase outflow of the last column. -/
lemma gLive_rowsum (r : Rates) (L : ℕ → ℕ → ℝ) (i : ℕ)
    (hEE : 1 ≤ r.nEE) (hER : 1 ≤ r.nER) (hEI : 1 ≤ r.nEI) (hP : 1 ≤ r.nP) :
    ∑ j in Finset.range r.ncol, gLive r L i j
      = r.s * ∑ j in Finset.range r.ncol, L (i+1) j
        - r.dEE * ∑ k in Finset.Ico 1 (r.nEE+1), L (i+1) k
        - r.dER * ∑ k in Finset.Ico (r.nEE+1) (r.nEE+r.nER+1), L (i+1) k
        - r.dEI * ∑ k in Finset.Ico (r.nEE+r.nER+1) (r.nEE+r.nER+r.nEI+1), L (i+1) k
        - r.dP * ∑ k in Finset.Ico (r.nEE+r.nER+r.nEI+1) r.ncol, L (i+1) k
        + r.rT * ((∑ j in Finset.range r.ncol, L i j)
            - ∑ j in Finset.range r.ncol, L (i+1) j)
        - r.rP * L (i+1) (r.nEE+r.nER+r.nEI+r.nP) := by
  have cEE : ∑ j in Finset.Ico 2 (r.nEE+1), gLive r L i j
      = r.rT * ((∑ j in Finset.Ico 2 (r.nEE+1), L i j)
            - ∑ j in Finset.Ico 2 (r.nEE+1), L (i+1) j)
        + r.rEE * (L (i+1) 1 - L (i+1) r.nEE)
        + (r.s - r.fEE) * ∑ j in Finset.Ico 2 (r.nEE+1), L (i+1) j
        - r.dEE * ∑ j in Finset.Ico 2 (r.nEE+1), L (i+1) j := by
    rw [Finset.sum_congr rfl (fun j hj => by
      have hm := Finset.mem_Ico.mp hj
      exact gLive_colEE r L i j hm.1 (by omega)),
      sum_chain L i 2 (r.nEE+1) (by omega) (by omega) r.rT r.rEE (r.s - r.fEE) r.dEE,
      show (2:ℕ) - 1 = 1 from rfl, Nat.add_sub_cancel]
  have cER : ∑ j in Finset.Ico (r.nEE+2) (r.nEE+r.nER+1), gLive r L i j
      = r.rT * ((∑ j in Finset.Ico (r.nEE+2) (r.nEE+r.nER+1), L i j)
            - ∑ j in Finset.Ico (r.nEE+2) (r.nEE+r.nER+1), L (i+1) j)
        + r.rER * (L (i+1) (r.nEE+1) - L (i+1) (r.nEE+r.nER))
        + (r.s - r.fER) * ∑ j in Finset.Ico (r.nEE+2) (r.nEE+r.nER+1), L (i+1) j
        - r.dER * ∑ j in Finset.Ico (r.nEE+2) (r.nEE+r.nER+1), L (i+1) j := by
    rw [Finset.sum_congr rfl (fun j hj => by
      have hm := Finset.mem_Ico.mp hj
      exact gLive_colER r L i j hm.1 (by omega)),
      sum_chain L i (r.nEE+2) (r.nEE+r.nER+1) (by omega) (by omega)
        r.rT r.rER (r.s - r.fER) r.dER,
      show r.nEE+2-1 = r.nEE+1 from by omega, Nat.add_sub_cancel]
  have cEI : ∑ j in Finset.Ico (r.nEE+r.nER+2) (r.nEE+r.nER+r.nEI+1), gLive r L i j
      = r.rT * ((∑ j in Finset.Ico (r.nEE+r.nER+2) (r.nEE+r.nER+r.nEI+1), L i j)
            - ∑ j in Finset.Ico (r.nEE+r.nER+2) (r.nEE+r.nER+r.nEI+1), L (i+1) j)
        + r.rEI * (L (i+1) (r.nEE+r.nER+1) - L (i+1) (r.nEE+r.nER+r.nEI))
        + (r.s - r.fEI)
            * ∑ j in Finset.Ico (r.nEE+r.nER+2) (r.nEE+r.nER+r.nEI+1), L (i+1) j
        - r.dEI * ∑ j in Finset.Ico (r.nEE+r.nER+2) (r.nEE+r.nER+r.nEI+1), L (i+1) j := by
    rw [Finset.sum_congr rfl (fun j hj => by
      have hm := Finset.mem_Ico.mp hj
      exact gLive_colEI r L i j hm.1 (by omega)),
      sum_chain L i (r.nEE+r.nER+2) (r.nEE+r.nER+r.nEI+1) (by omega) (by omega)
        r.rT r.rEI (r.s - r.fEI) r.dEI,
      show r.nEE+r.nER+2-1 = r.nEE+r.nER+1 from by omega, Nat.add_sub_cancel]
  have cP : ∑ j in Finset.Ico (r.nEE+r.nER+r.nEI+2) (1+r.nEE+r.nER+r.nEI+r.nP),
        gLive r L i j
      = r.rT * ((∑ j in Finset.Ico (r.nEE+r.nER+r.nEI+2) (1+r.nEE+r.nER+r.nEI+r.nP),
              L i j)
            - ∑ j in Finset.Ico (r.nEE+r.nER+r.nEI+2) (1+r.nEE+r.nER+r.nEI+r.nP),
              L (i+1) j)
        + r.rP * (L (i+1) (r.nEE+r.nER+r.nEI+1) - L (i+1) (r.nEE+r.nER+r.nEI+r.nP))
        + r.s * ∑ j in Finset.Ico (r.nEE+r.nER+r.nEI+2) (1+r.nEE+r.nER+r.nEI+r.nP),
            L (i+1) j
        - r.dP * ∑ j in Finset.Ico (r.nEE+r.nER+r.nEI+2) (1+r.nEE+r.nER+r.nEI+r.nP),
            L (i+1) j := by
    rw [Finset.sum_congr rfl (fun j hj => by
      have hm := Finset.mem_Ico.mp hj
      exact gLive_colP r L i j hm.1),
      sum_chain L i (r.nEE+r.nER+r.nEI+2) (1+r.nEE+r.nER+r.nEI+r.nP) (by omega)
        (by omega) r.rT r.rP r.s r.dP,
      show r.nEE+r.nER+r.nEI+2-1 = r.nEE+r.nER+r.nEI+1 from by omega,
      show 1+r.nEE+r.nER+r.nEI+r.nP-1 = r.nEE+r.nER+r.nEI+r.nP from by omega]
  simp only [Rates.ncol]
  rw [sum_range_ncol_split r.nEE r.nER r.nEI r.nP hEE hER hEI hP
      (fun j => gLive r L i j),
    sum_range_ncol_split r.nEE r.nER r.nEI r.nP hEE hER hEI hP
      (fun j => L (i+1) j),
    sum_range_ncol_split r.nEE r.nER r.nEI r.nP hEE hER hEI hP
      (fun j => L i j)]
  rw [gLive_col0, gLive_col1, gLive_colER1 r L i hEE, gLive_colEI1 r L i hER,
    gLive_colP1 r L i hEI, cEE, cER, cEI, cP]
  rw [← Finset.sum_Ico_consecutive (fun k => L (i+1) k)
      (show 1 ≤ 2 by omega) (show 2 ≤ r.nEE+1 by omega),
    sum_Ico_single 1 2 rfl (fun k => L (i+1) k),
    ← Finset.sum_Ico_consecutive (fun k => L (i+1) k)
      (show r.nEE+1 ≤ r.nEE+2 by omega) (show r.nEE+2 ≤ r.nEE+r.nER+1 by omega),
    sum_Ico_single (r.nEE+1) (r.nEE+2) rfl (fun k => L (i+1) k),
    ← Finset.sum_Ico_consecutive (fun k => L (i+1) k)
      (show r.nEE+r.nER+1 ≤ r.nEE+r.nER+2 by omega)
      (show r.nEE+r.nER+2 ≤ r.nEE+r.nER+r.nEI+1 by omega),
    sum_Ico_single (r.nEE+r.nER+1) (r.nEE+r.nER+2) rfl (fun k => L (i+1) k),
    ← Finset.sum_Ico_consecutive (fun k => L (i+1) k)
      (show r.nEE+r.nER+r.nEI+1 ≤ r.nEE+r.nER+r.nEI+2 by omega)
      (show r.nEE+r.nER+r.nEI+2 ≤ 1+r.nEE+r.nER+r.nEI+r.nP by omega),
    sum_Ico_single (r.nEE+r.nER+r.nEI+1) (r.nEE+r.nER+r.nEI+2) rfl
      (fun k => L (i+1) k)]
  ring

/-- Total mass balance of the common form: every transfer term cancels
between source and destination component, leaving only growth over the
live entries and disintegration of the dead entries. -/
lemma gTotal (r : Rates) (L : ℕ → ℕ → ℝ) (xdU xdI : ℝ)
    (hEE : 1 ≤ r.nEE) (hER : 1 ≤ r.nER) (hEI : 1 ≤ r.nEI) (hP : 1 ≤ r.nP)
    (hL0 : ∀ j, L 0 j = 0) :
    (∑ i in Finset.range r.nT, ∑ j in Finset.range r.ncol, gLive r L i j)
      + gDeadU r L xdU + gDeadI r L xdI
    = r.s * ∑ i in Finset.range r.nT, ∑ j in Finset.range r.ncol, L (i+1) j
      - r.dD * (xdU + xdI) := by
  rw [Finset.sum_congr rfl (fun i _ => gLive_rowsum r L i hEE hER hEI hP)]
  have hdist : ∑ i in Finset.range r.nT,
        (r.s * ∑ j in Finset.range r.ncol, L (i+1) j
          - r.dEE * ∑ k in Finset.Ico 1 (r.nEE+1), L (i+1) k
          - r.dER * ∑ k in Finset.Ico (r.nEE+1) (r.nEE+r.nER+1), L (i+1) k
          - r.dEI * ∑ k in Finset.Ico (r.nEE+r.nER+1) (r.nEE+r.nER+r.nEI+1), L (i+1) k
          - r.dP * ∑ k in Finset.Ico (r.nEE+r.nER+r.nEI+1) r.ncol, L (i+1) k
          + r.rT * ((∑ j in Finset.range r.ncol, L i j)
              - ∑ j in Finset.range r.ncol, L (i+1) j)
          - r.rP * L (i+1) (r.nEE+r.nER+r.nEI+r.nP))
      = r.s * ∑ i in Finset.range r.nT, ∑ j in Finset.range r.ncol, L (i+1) j
        - r.dEE * ∑ i in Finset.range r.nT, ∑ k in Finset.Ico 1 (r.nEE+1), L (i+1) k
        - r.dER * ∑ i in Finset.range r.nT,
            ∑ k in Finset.Ico (r.nEE+1) (r.nEE+r.nER+1), L (i+1) k
        - r.dEI * ∑ i in Finset.range r.nT,
            ∑ k in Finset.Ico (r.nEE+r.nER+1) (r.nEE+r.nER+r.nEI+1), L (i+1) k
        - r.dP * ∑ i in Finset.range r.nT,
            ∑ k in Finset.Ico (r.nEE+r.nER+r.nEI+1) r.ncol, L (i+1) k
        + r.rT * ((∑ i in Finset.range r.nT, ∑ j in Finset.range r.ncol, L i j)
            - ∑ i in Finset.range r.nT, ∑ j in Finset.range r.ncol, L (i+1) j)
        - r.rP * ∑ i in Finset.range r.nT, L (i+1) (r.nEE+r.nER+r.nEI+r.nP) := by
    simp only [Finset.sum_sub_distrib, Finset.sum_add_distrib, ← Finset.mul_sum]
  rw [hdist]
  have htel : (∑ i in Finset.range r.nT, ∑ j in Finset.range r.ncol, L i j)
      - ∑ i in Finset.range r.nT, ∑ j in Finset.range r.ncol, L (i+1) j
      = -∑ j in Finset.range r.ncol, L r.nT j := by
    rw [← Finset.sum_sub_distrib,
      Finset.sum_range_sub' (fun i => ∑ j in Finset.range r.ncol, L i j) r.nT]
    simp [hL0]
  rw [htel]
  unfold gDeadU gDeadI
  simp only [Rates.ncol]
  have hcomb : (∑ k in Finset.range (r.nEE+r.nER+r.nEI+1), L r.nT k)
      + ∑ k in Finset.Ico (r.nEE+r.nER+r.nEI+1) (1+r.nEE+r.nER+r.nEI+r.nP), L r.nT k
      = ∑ k in Finset.range (1+r.nEE+r.nER+r.nEI+r.nP), L r.nT k := by
    simp only [Finset.range_eq_Ico]
    exact Finset.sum_Ico_consecutive _ (by omega) (by omega)
  rw [← hcomb]
  ring

/-! ### Mass balance of the two RHS evaluators (C9) -/

lemma live_expP_zero (p : Par) (X : ℕ → ℝ) (j : ℕ) : live_expP p X 0 j = 0 := by
  unfold live_expP
  rw [if_pos rfl]

lemma live_gammaP_zero (p : Par) (X : ℕ → ℝ) (j : ℕ) : live_gammaP p X 0 j = 0 := by
  unfold live_gammaP
  rw [if_pos rfl]

lemma live_expP_succ (p : Par) (X : ℕ → ℝ) (i j : ℕ) :
    live_expP p X (i+1) j = clampX X (i * ncolL_expP p + j) := by
  unfold live_expP
  rw [if_neg (Nat.succ_ne_zero i), Nat.add_sub_cancel]

lemma live_gammaP_succ (p : Par) (X : ℕ → ℝ) (i j : ℕ) :
    live_gammaP p X (i+1) j = clampX X (i * ncolL_gammaP p + j) := by
  unfold live_gammaP
  rw [if_neg (Nat.succ_ne_zero i), Nat.add_sub_cancel]

/-- Flattening of the nested grid sum of a reshaped vector. -/
lemma sum_grid_flat (n ncol : ℕ) (f : ℕ → ℝ) :
    ∑ i in Finset.range n, ∑ j in Finset.range ncol, f (i * ncol + j)
      = ∑ k in Finset.range (n * ncol), f k := by
  rw [← sum_range_mul_divmod n ncol (fun i j => f (i * ncol + j))]
  refine Finset.sum_congr rfl ?_
  intro k _
  congr 1
  rw [Nat.mul_comm (k / ncol) ncol]
  exact Nat.div_add_mod k ncol

/-- Mass balance of `_ode_expP` for a nonnegative state. -/
lemma mass_balance_expP (p : Par) (t : ℝ) (X : ℕ → ℝ)
    (hEE : 1 ≤ p.nEE) (hER : 1 ≤ p.nER) (hEI : 1 ≤ p.nEI)
    (hX : ∀ k, 0 ≤ X k) :
    ∑ k in Finset.range (p.nT * ncolL_expP p + 2), dXdt_expP p t X k
      = p.s * ∑ k in Finset.range (p.nT * ncolL_expP p), X k
        - p.dD * (X (p.nT * ncolL_expP p) + X (p.nT * ncolL_expP p + 1)) := by
  have hclamp : ∀ k, clampX X k = X k := fun k => by
    unfold clampX
    rw [if_neg (not_lt.mpr (hX k))]
  rw [Finset.sum_range_succ, Finset.sum_range_succ]
  have hdU : dXdt_expP p t X (p.nT * ncolL_expP p) = dXdt_deadU_expP p X := by
    unfold dXdt_expP
    rw [if_neg (by omega), if_pos rfl]
  have hdI : dXdt_expP p t X (p.nT * ncolL_expP p + 1) = dXdt_deadI_expP p X := by
    unfold dXdt_expP
    rw [if_neg (by omega)]
    rw [if_neg (by omega), if_pos rfl]
  have hlivepart : ∑ k in Finset.range (p.nT * ncolL_expP p), dXdt_expP p t X k
      = ∑ i in Finset.range p.nT, ∑ j in Finset.range (ncolL_expP p),
          gLive (expRates p t) (live_expP p X) i j := by
    rw [Finset.sum_congr rfl (fun k hk => by
        have hklt := Finset.mem_range.mp hk
        unfold dXdt_expP
        rw [if_pos hklt]),
      sum_range_mul_divmod p.nT (ncolL_expP p)
        (fun i j => dXdt_live_expP p t X i j)]
    exact Finset.sum_congr rfl (fun i _ => Finset.sum_congr rfl (fun j hj =>
      dXdt_live_expP_eq p t X i j (Finset.mem_range.mp hj)))
  rw [hdU, hdI, hlivepart, dXdt_deadU_expP_eq p t X, dXdt_deadI_expP_eq p t X]
  have htot := gTotal (expRates p t) (live_expP p X)
    (clampX X (p.nT * ncolL_expP p)) (clampX X (p.nT * ncolL_expP p + 1))
    hEE hER hEI (le_refl 1) (live_expP_zero p X)
  rw [ncol_expRates] at htot
  rw [show (expRates p t).nT = p.nT from rfl, show (expRates p t).s = p.s from rfl,
    show (expRates p t).dD = p.dD from rfl] at htot
  rw [htot]
  simp only [live_expP_succ, hclamp]
  rw [sum_grid_flat p.nT (ncolL_expP p) X]

/-- Mass balance of `_ode_gammaP` for a nonnegative state. -/
lemma mass_balance_gammaP (p : Par) (t : ℝ) (X : ℕ → ℝ)
    (hEE : 1 ≤ p.nEE) (hER : 1 ≤ p.nER) (hEI : 1 ≤ p.nEI) (hP : 1 ≤ p.nP)
    (hX : ∀ k, 0 ≤ X k) :
    ∑ k in Finset.range (p.nT * ncolL_gammaP p + 2), dXdt_gammaP p t X k
      = p.s * ∑ k in Finset.range (p.nT * ncolL_gammaP p), X k
        - p.dD * (X (p.nT * ncolL_gammaP p) + X (p.nT * ncolL_gammaP p + 1)) := by
  have hclamp : ∀ k, clampX X k = X k := fun k => by
    unfold clampX
    rw [if_neg (not_lt.mpr (hX k))]
  rw [Finset.sum_range_succ, Finset.sum_range_succ]
  have hdU : dXdt_gammaP p t X (p.nT * ncolL_gammaP p) = dXdt_deadU_gammaP p X := by
    unfold dXdt_gammaP
    rw [if_neg (by omega), if_pos rfl]
  have hdI : dXdt_gammaP p t X (p.nT * ncolL_gammaP p + 1) = dXdt_deadI_gammaP p X := by
    unfold dXdt_gammaP
    rw [if_neg (by omega)]
    rw [if_neg (by omega), if_pos rfl]
  have hlivepart : ∑ k in Finset.range (p.nT * ncolL_gammaP p), dXdt_gammaP p t X k
      = ∑ i in Finset.range p.nT, ∑ j in Finset.range (ncolL_gammaP p),
          gLive (gammaRates p t) (live_gammaP p X) i j := by
    rw [Finset.sum_congr rfl (fun k hk => by
        have hklt := Finset.mem_range.mp hk
        unfold dXdt_gammaP
        rw [if_pos hklt]),
      sum_range_mul_divmod p.nT (ncolL_gammaP p)
        (fun i j => dXdt_live_gammaP p t X i j)]
    exact Finset.sum_congr rfl (fun i _ => Finset.sum_congr rfl (fun j _ =>
      dXdt_live_gammaP_eq p t X i j))
  rw [hdU, hdI, hlivepart, dXdt_deadU_gammaP_eq p t X, dXdt_deadI_gammaP_eq p t X]
  have htot := gTotal (gammaRates p t) (live_gammaP p X)
    (clampX X (p.nT * ncolL_gammaP p)) (clampX X (p.nT * ncolL_gammaP p + 1))
    hEE hER hEI hP (live_gammaP_zero p X)
  rw [ncol_gammaRates] at htot
  rw [show (gammaRates p t).nT = p.nT from rfl, show (gammaRates p t).s = p.s from rfl,
    show (gammaRates p t).dD = p.dD from rfl] at htot
  rw [htot]
  simp only [live_gammaP_succ, hclamp]
  rw [sum_grid_flat p.nT (ncolL_gammaP p) X]

/-- C9: exact mass balance of both RHS evaluators.  For every state
vector of the correct layout with nonnegative entries, the sum of all
derivative components equals `s` times the sum of the live entries minus
`dD` times the sum of the two trailing dead scalars: every infection,
progression, segment-exchange, failure-return and death term moves mass
between components without creating or destroying any. -/
theorem rhs_mass_balance (p : Par) (t : ℝ) (X : ℕ → ℝ)
    (hEE : 1 ≤ p.nEE) (hER : 1 ≤ p.nER) (hEI : 1 ≤ p.nEI) (hP : 1 ≤ p.nP)
    (hX : ∀ k, 0 ≤ X k) :
    (∑ k in Finset.range (p.nT * ncolL_expP p + 2), dXdt_expP p t X k
      = p.s * ∑ k in Finset.range (p.nT * ncolL_expP p), X k
        - p.dD * (X (p.nT * ncolL_expP p) + X (p.nT * ncolL_expP p + 1)))
    ∧ (∑ k in Finset.range (p.nT * ncolL_gammaP p + 2), dXdt_gammaP p t X k
      = p.s * ∑ k in Finset.range (p.nT * ncolL_gammaP p), X k
        - p.dD * (X (p.nT * ncolL_gammaP p) + X (p.nT * ncolL_gammaP p + 1))) :=
  ⟨mass_balance_expP p t X hEE hER hEI hX,
   mass_balance_gammaP p t X hEE hER hEI hP hX⟩

/-- Witness for `rhs_mass_balance` at the default parameters, the zero
state and `t = 0`. -/
theorem rhs_mass_balance_w :
    (∑ k in Finset.range (par0.nT * ncolL_expP par0 + 2),
        dXdt_expP par0 0 (fun _ => 0) k
      = par0.s * ∑ k in Finset.range (par0.nT * ncolL_expP par0), (0:ℝ)
        - par0.dD * (0 + 0))
    ∧ (∑ k in Finset.range (par0.nT * ncolL_gammaP par0 + 2),
        dXdt_gammaP par0 0 (fun _ => 0) k
      = par0.s * ∑ k in Finset.range (par0.nT * ncolL_gammaP par0), (0:ℝ)
        - par0.dD * (0 + 0)) :=
  rhs_mass_balance par0 0 (fun _ => 0) (by norm_num [par0]) (by norm_num [par0])
    (by norm_num [par0]) (by norm_num [par0]) (fun k => le_refl 0)

/-! ### Dead-cell derivative sign (C3) -/

lemma clampX_nonneg (X : ℕ → ℝ) (k : ℕ) : 0 ≤ clampX X k := by
  unfold clampX
  split_ifs with h
  · exact le_refl 0
  · exact not_lt.mp h

lemma live_expP_nonneg (p : Par) (X : ℕ → ℝ) (i j : ℕ) :
    0 ≤ live_expP p X i j := by
  unfold live_expP
  split_ifs
  · exact le_refl 0
  · exact clampX_nonneg X _

lemma live_gammaP_nonneg (p : Par) (X : ℕ → ℝ) (i j : ℕ) :
    0 ≤ live_gammaP p X i j := by
  unfold live_gammaP
  split_ifs
  · exact le_refl 0
  · exact clampX_nonneg X _

/-- With no disintegration, the dead-uninfected derivative of the common
form is a sum of nonnegative death and exchange inflows. -/
lemma gDeadU_nonneg (r : Rates) (L : ℕ → ℕ → ℝ) (xdU : ℝ)
    (hrT : 0 ≤ r.rT) (hdEE : 0 ≤ r.dEE) (hdER : 0 ≤ r.dER) (hdEI : 0 ≤ r.dEI)
    (hdD : r.dD = 0) (hL : ∀ i j, 0 ≤ L i j) :
    0 ≤ gDeadU r L xdU := by
  unfold gDeadU
  rw [hdD, zero_mul, sub_zero]
  refine add_nonneg (add_nonneg (add_nonneg ?_ ?_) ?_) ?_
  · exact mul_nonneg hdEE (Finset.sum_nonneg fun i _ =>
      Finset.sum_nonneg fun k _ => hL _ _)
  · exact mul_nonneg hdER (Finset.sum_nonneg fun i _ =>
      Finset.sum_nonneg fun k _ => hL _ _)
  · exact mul_nonneg hdEI (Finset.sum_nonneg fun i _ =>
      Finset.sum_nonneg fun k _ => hL _ _)
  · exact mul_nonneg hrT (Finset.sum_nonneg fun k _ => hL _ _)

/-- With no disintegration, the dead-infected derivative of the common
form is a sum of nonnegative death, exchange and progression inflows. -/
lemma gDeadI_nonneg (r : Rates) (L : ℕ → ℕ → ℝ) (xdI : ℝ)
    (hrT : 0 ≤ r.rT) (hrP : 0 ≤ r.rP) (hdP : 0 ≤ r.dP)
    (hdD : r.dD = 0) (hL : ∀ i j, 0 ≤ L i j) :
    0 ≤ gDeadI r L xdI := by
  unfold gDeadI
  rw [hdD, zero_mul, sub_zero]
  refine add_nonneg (add_nonneg ?_ ?_) ?_
  · exact mul_nonneg hdP (Finset.sum_nonneg fun i _ =>
      Finset.sum_nonneg fun k _ => hL _ _)
  · exact mul_nonneg hrT (Finset.sum_nonneg fun k _ => hL _ _)
  · exact mul_nonneg hrP (Finset.sum_nonneg fun i _ => hL _ _)

/-- C3 amended: with nonnegative death and progression rates and the
dead-cell disintegration rate `dD` equal to zero, the derivative
components of the two trailing dead scalars are nonnegative in both
variants.  (As stated, with `dD > 0` merely nonnegative, the claim is
false: each dead derivative carries the term `-dD*X[-2]` resp.
`-dD*X[-1]`, so it is only bounded below by `-dD` times the
corresponding dead scalar; see the counterexample.) -/
theorem dead_derivatives_nonneg (p : Par) (t : ℝ) (X : ℕ → ℝ)
    (htauT : 0 ≤ p.tauT) (htauP : 0 ≤ p.tauP)
    (hdEE : 0 ≤ p.dEE) (hdER : 0 ≤ p.dER) (hdEI : 0 ≤ p.dEI) (hdP : 0 ≤ p.dP)
    (hdD : p.dD = 0) :
    0 ≤ dXdt_expP p t X (p.nT * ncolL_expP p)
    ∧ 0 ≤ dXdt_expP p t X (p.nT * ncolL_expP p + 1)
    ∧ 0 ≤ dXdt_gammaP p t X (p.nT * ncolL_gammaP p)
    ∧ 0 ≤ dXdt_gammaP p t X (p.nT * ncolL_gammaP p + 1) := by
  have hrT : (0:ℝ) ≤ deltaT p := div_nonneg (Nat.cast_nonneg _) htauT
  have hrP : (0:ℝ) ≤ deltaP p := div_nonneg (Nat.cast_nonneg _) htauP
  have hdUe : dXdt_expP p t X (p.nT * ncolL_expP p) = dXdt_deadU_expP p X := by
    unfold dXdt_expP
    rw [if_neg (by omega), if_pos rfl]
  have hdIe : dXdt_expP p t X (p.nT * ncolL_expP p + 1) = dXdt_deadI_expP p X := by
    unfold dXdt_expP
    rw [if_neg (by omega)]
    rw [if_neg (by omega), if_pos rfl]
  have hdUg : dXdt_gammaP p t X (p.nT * ncolL_gammaP p) = dXdt_deadU_gammaP p X := by
    unfold dXdt_gammaP
    rw [if_neg (by omega), if_pos rfl]
  have hdIg : dXdt_gammaP p t X (p.nT * ncolL_gammaP p + 1) = dXdt_deadI_gammaP p X := by
    unfold dXdt_gammaP
    rw [if_neg (by omega)]
    rw [if_neg (by omega), if_pos rfl]
  refine ⟨?_, ?_, ?_, ?_⟩
  · rw [hdUe, dXdt_deadU_expP_eq p t X]
    exact gDeadU_nonneg _ _ _ hrT hdEE hdER hdEI hdD
      (fun i j => live_expP_nonneg p X i j)
  · rw [hdIe, dXdt_deadI_expP_eq p t X]
    exact gDeadI_nonneg _ _ _ hrT (le_refl 0) hdP hdD
      (fun i j => live_expP_nonneg p X i j)
  · rw [hdUg, dXdt_deadU_gammaP_eq p t X]
    exact gDeadU_nonneg _ _ _ hrT hdEE hdER hdEI hdD
      (fun i j => live_gammaP_nonneg p X i j)
  · rw [hdIg, dXdt_deadI_gammaP_eq p t X]
    exact gDeadI_nonneg _ _ _ hrT hrP hdP hdD
      (fun i j => live_gammaP_nonneg p X i j)

/-- Witness for `dead_derivatives_nonneg` at the minimal configuration
`cP1` (which has `dD = 0`). -/
theorem dead_derivatives_nonneg_w :
    0 ≤ dXdt_expP cP1 0 X1 (cP1.nT * ncolL_expP cP1)
    ∧ 0 ≤ dXdt_expP cP1 0 X1 (cP1.nT * ncolL_expP cP1 + 1)
    ∧ 0 ≤ dXdt_gammaP cP1 0 X1 (cP1.nT * ncolL_gammaP cP1)
    ∧ 0 ≤ dXdt_gammaP cP1 0 X1 (cP1.nT * ncolL_gammaP cP1 + 1) :=
  dead_derivatives_nonneg cP1 0 X1 (by norm_num [cP1, par0])
    (by norm_num [cP1, par0]) (by norm_num [cP1, par0]) (by norm_num [cP1, par0])
    (by norm_num [cP1, par0]) (by norm_num [cP1, par0]) (by norm_num [cP1, par0])

/-- Counterexample to C3 as stated: at `cP3` every death-related rate
(including `dD = 1`) is nonnegative and the state `X3` is nonnegative,
yet the derivative of the dead-uninfected scalar is `-1 < 0`: the
disintegration term `-dD*X[-2]` makes the dead population decrease. -/
theorem dead_derivative_negative_cex :
    0 ≤ deltaT cP3 ∧ 0 ≤ cP3.dEE ∧ 0 ≤ cP3.dER ∧ 0 ≤ cP3.dEI ∧ 0 ≤ cP3.dP
      ∧ 0 ≤ cP3.dD
      ∧ dXdt_expP cP3 0 X3 (cP3.nT * ncolL_expP cP3) < 0 := by
  have h : dXdt_expP cP3 0 X3 (cP3.nT * ncolL_expP cP3) = -1 := by
    norm_num [dXdt_expP, dXdt_deadU_expP, deltaT, ncolL_expP, live_expP, clampX,
      cP3, cP2, cP1, par0, X3, Finset.sum_range_succ, Finset.sum_range_zero]
  refine ⟨?_, ?_, ?_, ?_, ?_, ?_, ?_⟩
  · norm_num [deltaT, cP3, cP2, cP1, par0]
  · norm_num [cP3, cP2, cP1, par0]
  · norm_num [cP3, cP2, cP1, par0]
  · norm_num [cP3, cP2, cP1, par0]
  · norm_num [cP3, cP2, cP1, par0]
  · norm_num [cP3, cP2, cP1, par0]
  · rw [h]
    norm_num

/-! ### Drug action in the gamma variant (C1) -/

/-- Counterexample to C1 as stated: at `cP1` the efavirenz action time
is `0` and the evaluation time is `1`, so the exponential variant
multiplies the EE progression rate by `exp(-50)`, but the gamma variant
uses the constant rate `nEE/tauEE = 1`: the first EE derivative is `-2`
in the gamma variant versus `-1 - exp(-50)` in the exponential variant,
and the two are different. -/
theorem gammaP_no_drug_modulation_cex :
    dXdt_gammaP cP1 1 X1 1 = -2
    ∧ dXdt_expP cP1 1 X1 1 = -1 - Real.exp (-50)
    ∧ dXdt_gammaP cP1 1 X1 1 ≠ dXdt_expP cP1 1 X1 1 := by
  have h1 : dXdt_gammaP cP1 1 X1 1 = -2 := by
    norm_num [dXdt_gammaP, dXdt_live_gammaP, deltaT, deltaEE_gammaP,
      ncolL_gammaP, live_gammaP, clampX, cP1, par0, X1]
  have h2 : dXdt_expP cP1 1 X1 1 = -1 - Real.exp (-50) := by
    norm_num [dXdt_expP, dXdt_live_expP, deltaT, deltaEE_expP,
      ncolL_expP, live_expP, clampX, cP1, par0, X1]
  have hexp : Real.exp (-50) < 1 := by
    rw [Real.exp_lt_one_iff]
    norm_num
  refine ⟨h1, h2, ?_⟩
  rw [h1, h2]
  intro heq
  nlinarith [hexp]

/-- C1 amended: the gamma-variant RHS is independent of the drug-action
times `EFAV_time` and `RALT_time` altogether — it always uses the
constant progression rates `nEE/tauEE` and `nER/tauER`; only the
exponential variant applies the Gaussian drug-action modulation. -/
theorem gammaP_independent_of_drug_times (p : Par) (a b t : ℝ) (X : ℕ → ℝ)
    (k : ℕ) :
    dXdt_gammaP { p with EFAV_time := a, RALT_time := b } t X k
      = dXdt_gammaP p t X k := rfl

/-! ### The gamma variant at `nP = 1` versus the exponential variant (C2) -/

/-- Counterexample to C2 as stated: at `cP2` (all stage counts 1, so
`nP = 1` and `sigmaP = tauP`, drug times never reached, identical
parameters for both variants) and a state with one productive cell, the
productive-column derivative is `-2` in the gamma variant but `-1` in
the exponential variant: the gamma variant has the additional
productive-phase loss `deltaP = nP/tauP = 1` that the exponential
variant does not, so the two RHS evaluators do not agree. -/
theorem gammaP_nP1_cex :
    cP2.nP = 1
    ∧ dXdt_gammaP cP2 0 X2 4 = -2
    ∧ dXdt_expP cP2 0 X2 4 = -1
    ∧ dXdt_gammaP cP2 0 X2 4 ≠ dXdt_expP cP2 0 X2 4 := by
  have h1 : dXdt_gammaP cP2 0 X2 4 = -2 := by
    norm_num [dXdt_gammaP, dXdt_live_gammaP, deltaT, deltaEI, deltaP,
      ncolL_gammaP, live_gammaP, clampX, cP2, cP1, par0, X2]
  have h2 : dXdt_expP cP2 0 X2 4 = -1 := by
    norm_num [dXdt_expP, dXdt_live_expP, deltaT, deltaEI,
      ncolL_expP, live_expP, clampX, cP2, cP1, par0, X2]
  refine ⟨rfl, h1, h2, ?_⟩
  rw [h1, h2]
  norm_num

/-- With `nP = 1` and both drug-action times still ahead, a live column
of the gamma variant differs from the exponential variant exactly by the
productive-phase loss `-deltaP * P` in the (single) productive column. -/
lemma dXdt_live_nP1_diff (p : Par) (t : ℝ) (X : ℕ → ℝ) (i j : ℕ)
    (hP1 : p.nP = 1) (hEE : 1 ≤ p.nEE) (hER : 1 ≤ p.nER) (hEI : 1 ≤ p.nEI)
    (hEt : t < p.EFAV_time) (hRt : t < p.RALT_time)
    (hj : j < ncolL_gammaP p) :
    dXdt_live_gammaP p t X i j
      = dXdt_live_expP p t X i j
        + (if j = p.nEE + p.nER + p.nEI + 1 then
            -(deltaP p) * live_gammaP p X (i+1) j
          else 0) := by
  have hcol : ncolL_gammaP p = ncolL_expP p := by
    unfold ncolL_gammaP ncolL_expP
    omega
  have hlive : ∀ i j, live_gammaP p X i j = live_expP p X i j := by
    intro i j
    unfold live_gammaP live_expP
    rw [hcol]
  have hdEE : deltaEE_expP p t = deltaEE_gammaP p := by
    unfold deltaEE_expP deltaEE_gammaP
    rw [if_pos hEt]
  have hdER : deltaER_expP p t = deltaER_gammaP p := by
    unfold deltaER_expP deltaER_gammaP
    rw [if_pos hRt]
  have hjle : j ≤ p.nEE + p.nER + p.nEI + 1 := by
    unfold ncolL_gammaP at hj
    omega
  unfold dXdt_live_gammaP dXdt_live_expP
  simp only [hlive, hdEE, hdER]
  split_ifs
  all_goals first
  | ring1
  | (exfalso; omega)

/-- C2 amended, full component form: with the productive-phase stage
count forced to 1 and the drug-action times not yet reached, the
gamma-variant derivative equals the exponential-variant derivative at
every component except the productive column of each segment, which
additionally loses mass at rate `1/tauP`, and the dead-infected scalar,
which gains exactly that mass.  (As claimed — identical derivatives
everywhere — the statement is false; see the counterexample: the
exponential variant has no `1/tauP` productive-phase death flow at
all.) -/
theorem gammaP_nP1_vs_expP (p : Par) (t : ℝ) (X : ℕ → ℝ) (k : ℕ)
    (hP1 : p.nP = 1) (hEE : 1 ≤ p.nEE) (hER : 1 ≤ p.nER) (hEI : 1 ≤ p.nEI)
    (hEt : t < p.EFAV_time) (hRt : t < p.RALT_time) :
    dXdt_gammaP p t X k
      = dXdt_expP p t X k
        + (if k < p.nT * ncolL_gammaP p
              ∧ k % ncolL_gammaP p = p.nEE + p.nER + p.nEI + 1 then
            -(1 / p.tauP) * live_gammaP p X (k / ncolL_gammaP p + 1)
              (p.nEE + p.nER + p.nEI + 1)
          else if k = p.nT * ncolL_gammaP p + 1 then
            (1 / p.tauP) * ∑ i in Finset.range p.nT,
              live_gammaP p X (i+1) (p.nEE + p.nER + p.nEI + 1)
          else 0) := by
  have hcol : ncolL_gammaP p = ncolL_expP p := by
    unfold ncolL_gammaP ncolL_expP
    omega
  have hlive : ∀ i j, live_gammaP p X i j = live_expP p X i j := by
    intro i j
    unfold live_gammaP live_expP
    rw [hcol]
  have hdP : deltaP p = 1 / p.tauP := by
    unfold deltaP
    rw [hP1, Nat.cast_one]
  have hncolpos : 0 < ncolL_gammaP p := by
    unfold ncolL_gammaP
    omega
  have hdeadU : dXdt_deadU_gammaP p X = dXdt_deadU_expP p X := by
    unfold dXdt_deadU_gammaP dXdt_deadU_expP
    simp only [hlive, hcol]
  have hdeadI : dXdt_deadI_gammaP p X
      = dXdt_deadI_expP p X
        + deltaP p * ∑ i in Finset.range p.nT,
            live_gammaP p X (i+1) (p.nEE + p.nER + p.nEI + 1) := by
    unfold dXdt_deadI_gammaP dXdt_deadI_expP
    simp only [hlive, hcol, hP1]
    rw [Finset.sum_congr rfl (fun i _ =>
        sum_Ico_single (p.nEE+p.nER+p.nEI+1) (p.nEE+p.nER+p.nEI+1+1) rfl
          (fun k => live_expP p X (i+1) k)),
      sum_Ico_single (p.nEE+p.nER+p.nEI+1) (p.nEE+p.nER+p.nEI+1+1) rfl
        (fun k => live_expP p X p.nT k)]
    ring
  have hprod : p.nT * ncolL_gammaP p = p.nT * ncolL_expP p := by
    rw [hcol]
  by_cases hk : k < p.nT * ncolL_gammaP p
  · have hk2 : k < p.nT * ncolL_expP p := by omega
    have hjlt : k % ncolL_gammaP p < ncolL_gammaP p := Nat.mod_lt k hncolpos
    have hstep := dXdt_live_nP1_diff p t X (k / ncolL_gammaP p)
      (k % ncolL_gammaP p) hP1 hEE hER hEI hEt hRt hjlt
    have hLg : dXdt_gammaP p t X k
        = dXdt_live_gammaP p t X (k / ncolL_gammaP p) (k % ncolL_gammaP p) := by
      unfold dXdt_gammaP
      rw [if_pos hk]
    have hLe : dXdt_expP p t X k
        = dXdt_live_expP p t X (k / ncolL_gammaP p) (k % ncolL_gammaP p) := by
      unfold dXdt_expP
      rw [if_pos hk2, ← hcol]
    rw [hLg, hLe, hstep]
    by_cases hj : k % ncolL_gammaP p = p.nEE + p.nER + p.nEI + 1
    · rw [if_pos hj, if_pos ⟨hk, hj⟩, hj, hdP]
    · rw [if_neg hj,
        if_neg (show ¬(k < p.nT * ncolL_gammaP p
          ∧ k % ncolL_gammaP p = p.nEE + p.nER + p.nEI + 1) from fun h => hj h.2),
        if_neg (show ¬(k = p.nT * ncolL_gammaP p + 1) from by omega)]
  · have hnk2 : ¬ k < p.nT * ncolL_expP p := by omega
    have hc2 : ¬(k < p.nT * ncolL_gammaP p
        ∧ k % ncolL_gammaP p = p.nEE + p.nER + p.nEI + 1) := fun h => hk h.1
    by_cases hk3 : k = p.nT * ncolL_gammaP p
    · have hkne : ¬ k = p.nT * ncolL_gammaP p + 1 := by omega
      have hg : dXdt_gammaP p t X k = dXdt_deadU_gammaP p X := by
        unfold dXdt_gammaP
        rw [if_neg hk, if_pos hk3]
      have he : dXdt_expP p t X k = dXdt_deadU_expP p X := by
        unfold dXdt_expP
        rw [if_neg hnk2, if_pos (show k = p.nT * ncolL_expP p from by omega)]
      rw [hg, he, hdeadU, if_neg hc2, if_neg hkne, add_zero]
    · by_cases hk4 : k = p.nT * ncolL_gammaP p + 1
      · have hg : dXdt_gammaP p t X k = dXdt_deadI_gammaP p X := by
          unfold dXdt_gammaP
          rw [if_neg hk, if_neg hk3, if_pos hk4]
        have he : dXdt_expP p t X k = dXdt_deadI_expP p X := by
          unfold dXdt_expP
          rw [if_neg hnk2, if_neg (show ¬ k = p.nT * ncolL_expP p from by omega),
            if_pos (show k = p.nT * ncolL_expP p + 1 from by omega)]
        rw [hg, he, if_neg hc2, if_pos hk4, hdeadI, hdP]
      · have hg : dXdt_gammaP p t X k = 0 := by
          unfold dXdt_gammaP
          rw [if_neg hk, if_neg hk3, if_neg hk4]
        have he : dXdt_expP p t X k = 0 := by
          unfold dXdt_expP
          rw [if_neg hnk2, if_neg (show ¬ k = p.nT * ncolL_expP p from by omega),
            if_neg (show ¬ k = p.nT * ncolL_expP p + 1 from by omega)]
        rw [hg, he, if_neg hc2, if_neg hk4, add_zero]

/-- Witness for `gammaP_nP1_vs_expP` at `cP2`, `t = 0`, the productive
state `X2` and the productive component `k = 4`. -/
theorem gammaP_nP1_vs_expP_w :
    dXdt_gammaP cP2 0 X2 4
      = dXdt_expP cP2 0 X2 4
        + (if 4 < cP2.nT * ncolL_gammaP cP2
              ∧ 4 % ncolL_gammaP cP2 = cP2.nEE + cP2.nER + cP2.nEI + 1 then
            -(1 / cP2.tauP) * live_gammaP cP2 X2 (4 / ncolL_gammaP cP2 + 1)
              (cP2.nEE + cP2.nER + cP2.nEI + 1)
          else if 4 = cP2.nT * ncolL_gammaP cP2 + 1 then
            (1 / cP2.tauP) * ∑ i in Finset.range cP2.nT,
              live_gammaP cP2 X2 (i+1) (cP2.nEE + cP2.nER + cP2.nEI + 1)
          else 0) :=
  gammaP_nP1_vs_expP cP2 0 X2 4 rfl (by norm_num [cP2, cP1, par0])
    (by norm_num [cP2, cP1, par0]) (by norm_num [cP2, cP1, par0])
    (by norm_num [cP2, cP1, par0]) (by norm_num [cP2, cP1, par0])

end HIVModel
